import Mathlib

/-!
Verification of the page-classification core of `python-service/parser.py`
(hybrid four-tier spec-page classifier).

The Python module is shallowly embedded: each Python function that the
claims touch becomes a Lean definition of the same name (snake_case kept
where Lean allows).  Python dicts are modelled as insertion-ordered
association lists, Python `re` searches as hand-written character-list
matchers that reproduce the scanning and backtracking behaviour of the
specific patterns used by the module, and the external Gemini HTTP oracle
as an abstract `Nat → BatchResult` function (one result per batch).
Python float expressions `total_pages * 0.2` and `classified / total < 0.5`
are modelled as exact rational / integer comparisons; for the integer
ranges reachable here (page counts) the float and exact comparisons agree.
-/

set_option maxRecDepth 4000

namespace ParserSpec

/-- Valid CSI MasterFormat division codes (`VALID_DIVISIONS` in parser.py). -/
def VALID_DIVISIONS : List String :=
  ["00", "01", "02", "03", "04", "05", "06", "07", "08", "09", "10", "11",
   "12", "13", "14", "21", "22", "23", "25", "26", "27", "28", "31", "32",
   "33", "34", "35", "40", "41", "42", "43", "44", "45", "46", "47", "48"]

/-- The `common_section_mids` allowlist of `is_valid_division`. -/
def COMMON_SECTION_MIDS : List Nat :=
  [0, 5, 10, 15, 20, 21, 22, 23, 24, 25, 30, 35, 40, 50, 60, 70, 80, 90]

/-- Python `int(s)` on a string of ASCII digits. -/
def pyInt (s : String) : Nat :=
  s.data.foldl (fun n c => n * 10 + (c.toNat - 48)) 0

/-- Python slice `s[:n]` (by characters, like Python code points). -/
def pyTakeStr (s : String) (n : Nat) : String :=
  ⟨s.data.take n⟩

/-- `is_valid_division(d1, d2, d3)` from parser.py: rejects non-whitelisted
divisions, and inside the date window (mid 1..31, last 20..35) rejects codes
whose mid is not a common section middle and lies in 1..28. -/
def is_valid_division (d1 d2 d3 : String) : Bool :=
  let mid := pyInt d2
  let last := pyInt d3
  if d1 ∈ VALID_DIVISIONS then
    if 1 ≤ mid ∧ mid ≤ 31 ∧ 20 ≤ last ∧ last ≤ 35 then
      if mid ∉ COMMON_SECTION_MIDS ∧ 1 ≤ mid ∧ mid ≤ 28 then false
      else true
    else true
  else false

/-- Largest element of a list of naturals (Python `max` on a nonempty list). -/
def listMax : List Nat → Nat
  | [] => 0
  | x :: xs => xs.foldl Nat.max x

/-- Smallest element of a list of naturals (Python `min` on a nonempty list). -/
def listMin : List Nat → Nat
  | [] => 0
  | x :: xs => xs.foldl Nat.min x

/-- `validate_toc_map(toc_map, total_pages)` from parser.py.  The candidate
map is an insertion-ordered association list `section ↦ startPage`.  The
float test `max_page < total_pages * 0.2` is modelled as the exact rational
comparison; for page counts far below 2^50 the two agree. -/
def validate_toc_map (toc_map : List (String × Nat)) (total_pages : Nat) :
    List (String × Nat) :=
  if toc_map.isEmpty then []
  else
    let page_numbers := toc_map.map (·.2)
    let max_page := listMax page_numbers
    let min_page := listMin page_numbers
    if max_page ≤ 20 ∧ min_page ≤ 2 then []
    else if max_page < 10 then []
    else if (max_page : ℚ) < (total_pages : ℚ) * (1 / 5) then []
    else toc_map

/-! ### Character classes and regex scanning primitives

The regex patterns of parser.py are embedded as hand-written matchers over
`List Char`.  Each `try…` function attempts to match its pattern at the
start of the given character list (implementing the pattern's greedy /
backtracking behaviour) and returns the captured groups together with the
remaining characters after the match.  `searchL` reproduces `re.search`
(leftmost match, scanning positions left to right); `findAllAux` reproduces
`re.finditer`/`re.findall` (non-overlapping matches, resuming after each
match end). -/

/-- Python `\s` (the ASCII whitespace characters). -/
def isPySpace (c : Char) : Bool :=
  c == ' ' || c == '\t' || c == '\n' || c == '\x0d' || c == '\x0c' || c == '\x0b'

/-- Python `\w` (ASCII letters, digits, underscore). -/
def isWordChar (c : Char) : Bool :=
  c.isAlphanum || c == '_'

/-- The dash class `[-–—]` used by the footer patterns. -/
def isDash (c : Char) : Bool :=
  c == '-' || c == '–' || c == '—'

/-- Python `str.upper()` (ASCII behaviour). -/
def pyUpper (s : String) : String :=
  ⟨s.data.map Char.toUpper⟩

/-- Substring scan: does `subl` occur as a contiguous block? -/
def containsAux (subl : List Char) : List Char → Bool
  | [] => subl.isEmpty
  | c :: cs => subl.isPrefixOf (c :: cs) || containsAux subl cs

/-- Python `sub in s` substring containment. -/
def containsStr (s sub : String) : Bool :=
  containsAux sub.data s.data

/-- Python `str.strip()` (remove leading/trailing whitespace). -/
def pyStrip (s : String) : String :=
  ⟨((s.data.dropWhile isPySpace).reverse.dropWhile isPySpace).reverse⟩

/-- Maximal run of digits at the head of the list, plus the remainder. -/
def spanDigits : List Char → List Char × List Char
  | [] => ([], [])
  | c :: cs =>
    if c.isDigit then
      let (a, b) := spanDigits cs
      (c :: a, b)
    else ([], c :: cs)

/-- `\s*`: drop any leading whitespace. -/
def skipSpaces : List Char → List Char
  | [] => []
  | c :: cs => if isPySpace c then skipSpaces cs else c :: cs

/-- `\s+`: require at least one whitespace character, then drop the run. -/
def skipSpaces1 : List Char → Option (List Char)
  | [] => none
  | c :: cs => if isPySpace c then some (skipSpaces cs) else none

/-- `(\d{2})`: two digit characters. -/
def digit2 : List Char → Option ((Char × Char) × List Char)
  | a :: b :: cs => if a.isDigit && b.isDigit then some ((a, b), cs) else none
  | _ => none

/-- The division group `(0[1-9]|[1-4]\d)`. -/
def divGroup : List Char → Option ((Char × Char) × List Char)
  | a :: b :: cs =>
    if a == '0' && b.isDigit && b != '0' then some ((a, b), cs)
    else if (a == '1' || a == '2' || a == '3' || a == '4') && b.isDigit then
      some ((a, b), cs)
    else none
  | _ => none

/-- A two-character group as a string. -/
def g2s (p : Char × Char) : String :=
  ⟨[p.1, p.2]⟩

/-- `\b` after a match: next character absent or not a word character. -/
def boundaryOk : List Char → Bool
  | [] => true
  | c :: _ => !(isWordChar c)

/-- `\s*[-–—]\s*(\d{1,3})`: the dash-plus-page-number tail shared by the
compact/spaced footer patterns.  Returns the remainder after the (greedily
matched, at most three digit) page number. -/
def dashPage (cs : List Char) : Option (List Char) :=
  match skipSpaces cs with
  | [] => none
  | c :: cs2 =>
    if isDash c then
      match spanDigits (skipSpaces cs2) with
      | ([], _) => none
      | (ds, rest) => some (ds.drop 3 ++ rest)
    else none

/-- Backtracking helper for `(?:\.(\d+))?` followed by a continuation:
try sub-group lengths k, k-1, …, 1 (regex `\d+` is greedy and backtracks). -/
def trySubLen {α : Type} (cont : List Char → Option α) (ds r : List Char) :
    Nat → Option (List Char × α)
  | 0 => none
  | k + 1 =>
    match cont (ds.drop (k + 1) ++ r) with
    | some a => some (ds.take (k + 1), a)
    | none => trySubLen cont ds r k

/-- `(?:\.(\d+))?` followed by a continuation, with full backtracking:
greedily match the optional dotted sub-section, falling back to shorter
digit captures and finally to skipping the optional group. -/
def optSub {α : Type} (cont : List Char → Option α) (cs : List Char) :
    Option (Option (List Char) × α) :=
  match cs with
  | '.' :: cs2 =>
    let (ds, r) := spanDigits cs2
    if ds.isEmpty then (cont cs).map (fun a => (none, a))
    else
      match trySubLen cont ds r ds.length with
      | some (sub, a) => some (some sub, a)
      | none => (cont cs).map (fun a => (none, a))
  | _ => (cont cs).map (fun a => (none, a))

/-- Pattern `compact_page`: `(0[1-9]|[1-4]\d)(\d{3,4})\s*[-–—]\s*\d{1,3}`. -/
def tryCompactPage (cs : List Char) :
    Option (((Char × Char) × List Char) × List Char) :=
  match divGroup cs with
  | none => none
  | some (dv, r1) =>
    let (run, r2) := spanDigits r1
    let k4 : Option (((Char × Char) × List Char) × List Char) :=
      if 4 ≤ run.length then
        (dashPage (run.drop 4 ++ r2)).map fun rest => ((dv, run.take 4), rest)
      else none
    match k4 with
    | some res => some res
    | none =>
      if 3 ≤ run.length then
        (dashPage (run.drop 3 ++ r2)).map fun rest => ((dv, run.take 3), rest)
      else none

/-- Groups of the spaced footer patterns. -/
structure SpacedG where
  dv : Char × Char
  g2 : Char × Char
  g3 : Option (Char × Char)
  sub : Option (List Char)
deriving DecidableEq, Repr

/-- Pattern `spaced_page` of `detect_spec_format`:
`(0[1-9]|[1-4]\d)\s+(\d{2})\s*(\d{2})?\s*[-–—]\s*\d{1,3}`. -/
def trySpacedPageDetect (cs : List Char) : Option (SpacedG × List Char) :=
  match divGroup cs with
  | none => none
  | some (dv, r1) =>
    match skipSpaces1 r1 with
    | none => none
    | some r2 =>
      match digit2 r2 with
      | none => none
      | some (g2, r3) =>
        let r4 := skipSpaces r3
        let withG3 :=
          match digit2 r4 with
          | some (g3, r5) =>
            (dashPage r5).map fun rest =>
              ({ dv := dv, g2 := g2, g3 := some g3, sub := none }, rest)
          | none => none
        match withG3 with
        | some res => some res
        | none =>
          (dashPage r4).map fun rest =>
            ({ dv := dv, g2 := g2, g3 := none, sub := none }, rest)

/-- Pattern `spaced_page` of `detect_division_from_content`:
`(0[1-9]|[1-4]\d)\s+(\d{2})\s*(\d{2})?(?:\.(\d+))?\s*[-–—]\s*\d{1,3}`. -/
def tryContentSpaced (cs : List Char) : Option (SpacedG × List Char) :=
  match divGroup cs with
  | none => none
  | some (dv, r1) =>
    match skipSpaces1 r1 with
    | none => none
    | some r2 =>
      match digit2 r2 with
      | none => none
      | some (g2, r3) =>
        let r4 := skipSpaces r3
        let withG3 : Option (SpacedG × List Char) :=
          match digit2 r4 with
          | some (g3, r5) =>
            (optSub dashPage r5).map fun sa =>
              (({ dv := dv, g2 := g2, g3 := some g3, sub := sa.1 } : SpacedG),
                sa.2)
          | none => none
        match withG3 with
        | some res => some res
        | none =>
          (optSub dashPage r4).map fun sa =>
            (({ dv := dv, g2 := g2, g3 := none, sub := sa.1 } : SpacedG), sa.2)

/-- The literal `SECTION` (patterns are applied to upper-cased regions). -/
def litSECTION : List Char → Option (List Char)
  | 'S' :: 'E' :: 'C' :: 'T' :: 'I' :: 'O' :: 'N' :: cs => some cs
  | _ => none

/-- The literal `Section` under `re.IGNORECASE`. -/
def litSectionCI : List Char → Option (List Char)
  | a :: b :: c :: d :: e :: f :: g :: cs =>
    if a.toUpper == 'S' && b.toUpper == 'E' && c.toUpper == 'C' &&
        d.toUpper == 'T' && e.toUpper == 'I' && f.toUpper == 'O' &&
        g.toUpper == 'N' then some cs
    else none
  | _ => none

/-- Pattern `section_compact`: `SECTION\s+(0[1-9]|[1-4]\d)(\d{3,4})\b`. -/
def trySectionCompact (cs : List Char) :
    Option (((Char × Char) × List Char) × List Char) :=
  match litSECTION cs with
  | none => none
  | some r0 =>
    match skipSpaces1 r0 with
    | none => none
    | some r1 =>
      match divGroup r1 with
      | none => none
      | some (dv, r2) =>
        let (run, r3) := spanDigits r2
        let k4 : Option (((Char × Char) × List Char) × List Char) :=
          if 4 ≤ run.length ∧ boundaryOk (run.drop 4 ++ r3) = true then
            some ((dv, run.take 4), run.drop 4 ++ r3)
          else none
        match k4 with
        | some res => some res
        | none =>
          if 3 ≤ run.length ∧ boundaryOk (run.drop 3 ++ r3) = true then
            some ((dv, run.take 3), run.drop 3 ++ r3)
          else none

/-- Pattern `section_spaced` of `detect_spec_format`:
`SECTION\s+(0[1-9]|[1-4]\d)\s+(\d{2})\s+(\d{2})`. -/
def trySectionSpacedDetect (cs : List Char) : Option (SpacedG × List Char) :=
  match litSECTION cs with
  | none => none
  | some r0 =>
    match skipSpaces1 r0 with
    | none => none
    | some r1 =>
      match divGroup r1 with
      | none => none
      | some (dv, r2) =>
        match skipSpaces1 r2 with
        | none => none
        | some r3 =>
          match digit2 r3 with
          | none => none
          | some (g2, r4) =>
            match skipSpaces1 r4 with
            | none => none
            | some r5 =>
              match digit2 r5 with
              | none => none
              | some (g3, r6) =>
                some ({ dv := dv, g2 := g2, g3 := some g3, sub := none }, r6)

/-- Trailing `(?:\.(\d+))?` at the very end of a pattern (no continuation,
so plain greedy matching). -/
def greedySub (cs : List Char) : Option (List Char) × List Char :=
  match cs with
  | '.' :: cs2 =>
    match spanDigits cs2 with
    | ([], _) => (none, cs)
    | (ds, r) => (some ds, r)
  | _ => (none, cs)

/-- Pattern `section_spaced` of `detect_division_from_content`:
`SECTION\s+(0[1-9]|[1-4]\d)\s+(\d{2})\s+(\d{2})(?:\.(\d+))?`. -/
def trySectionSpacedContent (cs : List Char) : Option (SpacedG × List Char) :=
  match trySectionSpacedDetect cs with
  | none => none
  | some (g, r) =>
    let (sub, r2) := greedySub r
    some ({ g with sub := sub }, r2)

/-- Pattern `DIVISION\s+(0?[1-9]|[1-4]\d)\b`; the group is one or two
characters, matching the regex alternation order. -/
def tryDivisionPat (cs : List Char) : Option (List Char × List Char) :=
  match cs with
  | 'D' :: 'I' :: 'V' :: 'I' :: 'S' :: 'I' :: 'O' :: 'N' :: r0 =>
    match skipSpaces1 r0 with
    | none => none
    | some r1 =>
      match r1 with
      | [] => none
      | a :: rest1 =>
        let alt1 : Option (List Char × List Char) :=
          if a == '0' then
            match rest1 with
            | b :: rest2 =>
              if b.isDigit && b != '0' && boundaryOk rest2 then
                some ([a, b], rest2)
              else none
            | [] => none
          else none
        match alt1 with
        | some res => some res
        | none =>
          let alt2 : Option (List Char × List Char) :=
            if a.isDigit && a != '0' && boundaryOk rest1 then
              some ([a], rest1)
            else none
          match alt2 with
          | some res => some res
          | none =>
            match rest1 with
            | b :: rest2 =>
              if (a == '1' || a == '2' || a == '3' || a == '4') && b.isDigit
                  && boundaryOk rest2 then
                some ([a, b], rest2)
              else none
            | [] => none
  | _ => none

/-- Python `str.zfill(2)` on a short character list. -/
def zfill2 (l : List Char) : String :=
  if l.length = 1 then ⟨'0' :: l⟩ else ⟨l⟩

/-- Groups of the strict footer / outline / TOC patterns:
three two-digit groups plus an optional dotted sub-section. -/
structure FooterG where
  d1 : Char × Char
  d2 : Char × Char
  d3 : Char × Char
  sub : Option (List Char)
deriving DecidableEq, Repr

/-- The strict footer pattern of `extract_section_from_footer`:
`(\d{2})\s+(\d{2})\s+(\d{2})(?:\.(\d+))?\s*[-–—]\s*(\d{1,3})(?:\s*/\s*\d+)?`.
(The uncaptured optional `/ total` suffix does not affect the captured
groups and only the groups of the first match are used.) -/
def tryStrictFooter (cs : List Char) : Option (FooterG × List Char) :=
  match digit2 cs with
  | none => none
  | some (d1, r1) =>
    match skipSpaces1 r1 with
    | none => none
    | some r2 =>
      match digit2 r2 with
      | none => none
      | some (d2, r3) =>
        match skipSpaces1 r3 with
        | none => none
        | some r4 =>
          match digit2 r4 with
          | none => none
          | some (d3, r5) =>
            (optSub dashPage r5).map fun sa =>
              (({ d1 := d1, d2 := d2, d3 := d3, sub := sa.1 } : FooterG), sa.2)

/-- The header pattern of `extract_section_from_footer`:
`SECTION\s+(\d{2})\s+(\d{2})\s+(\d{2})(?:\.(\d+))?` with `re.IGNORECASE`. -/
def trySectionHeaderFooter (cs : List Char) : Option (FooterG × List Char) :=
  match litSectionCI cs with
  | none => none
  | some r0 =>
    match skipSpaces1 r0 with
    | none => none
    | some r1 =>
      match digit2 r1 with
      | none => none
      | some (d1, r2) =>
        match skipSpaces1 r2 with
        | none => none
        | some r3 =>
          match digit2 r3 with
          | none => none
          | some (d2, r4) =>
            match skipSpaces1 r4 with
            | none => none
            | some r5 =>
              match digit2 r5 with
              | none => none
              | some (d3, r6) =>
                let (sub, r7) := greedySub r6
                some ({ d1 := d1, d2 := d2, d3 := d3, sub := sub }, r7)

/-- The bookmark-title pattern of `extract_pdf_outline`:
`(\d{2})\s*(\d{2})\s*(\d{2})(?:\.(\d+))?`. -/
def tryOutlineSection (cs : List Char) : Option (FooterG × List Char) :=
  match digit2 cs with
  | none => none
  | some (d1, r1) =>
    match digit2 (skipSpaces r1) with
    | none => none
    | some (d2, r3) =>
      match digit2 (skipSpaces r3) with
      | none => none
      | some (d3, r5) =>
        let (sub, r6) := greedySub r5
        some ({ d1 := d1, d2 := d2, d3 := d3, sub := sub }, r6)

/-- Groups of the TOC-line pattern: section groups plus the page number. -/
structure TocG where
  d1 : Char × Char
  d2 : Char × Char
  d3 : Char × Char
  sub : Option (List Char)
  pageDigits : List Char
deriving DecidableEq, Repr

/-- `\s*$` under `re.MULTILINE` starting from the given position: some split
of the whitespace run must end the string or sit just before a newline. -/
def lineEndOk (cs : List Char) : Bool :=
  let ws := cs.takeWhile isPySpace
  let r := cs.dropWhile isPySpace
  ws.contains '\n' || r.isEmpty

/-- The tail `[^\d]*?(\d{1,4})\s*$` of the TOC-line pattern: the lazy
`[^\d]*?` stops at the first digit run, which must be 1–4 digits long and be
followed by (whitespace and) a line end.  Returns the page-number digits and
the remainder after them; matches cannot start inside the skipped
whitespace, so resuming there is equivalent to resuming at the regex match
end. -/
def tocTail : List Char → Option (List Char × List Char)
  | [] => none
  | c :: cs =>
    if c.isDigit then
      let (run, r) := spanDigits (c :: cs)
      if run.length ≤ 4 && lineEndOk r then some (run, r) else none
    else tocTail cs

/-- The TOC-line pattern of `parse_toc`:
`(\d{2})\s+(\d{2})\s+(\d{2})(?:\.(\d+))?[^\d]*?(\d{1,4})\s*$` (MULTILINE). -/
def tryTocLine (cs : List Char) : Option (TocG × List Char) :=
  match digit2 cs with
  | none => none
  | some (d1, r1) =>
    match skipSpaces1 r1 with
    | none => none
    | some r2 =>
      match digit2 r2 with
      | none => none
      | some (d2, r3) =>
        match skipSpaces1 r3 with
        | none => none
        | some r4 =>
          match digit2 r4 with
          | none => none
          | some (d3, r5) =>
            (optSub tocTail r5).map fun sa =>
              (({ d1 := d1, d2 := d2, d3 := d3, sub := sa.1,
                  pageDigits := sa.2.1 } : TocG), sa.2.2)

/-- The body pattern `\b(\d{2})\s+(\d{2})\s+(\d{2})\b` at one position;
`prevW` records whether the preceding character is a word character. -/
def tryCrossRef (prevW : Bool) (cs : List Char) :
    Option (((Char × Char) × (Char × Char) × (Char × Char)) × List Char) :=
  if prevW then none
  else
    match digit2 cs with
    | none => none
    | some (d1, r1) =>
      match skipSpaces1 r1 with
      | none => none
      | some r2 =>
        match digit2 r2 with
        | none => none
        | some (d2, r3) =>
          match skipSpaces1 r3 with
          | none => none
          | some r4 =>
            match digit2 r4 with
            | none => none
            | some (d3, r5) =>
              if boundaryOk r5 then some ((d1, d2, d3), r5) else none

/-- `re.findall` of the `\b(\d{2})\s+(\d{2})\s+(\d{2})\b` pattern. -/
def findCrossRefsAux :
    Nat → Bool → List Char → List ((Char × Char) × (Char × Char) × (Char × Char))
  | 0, _, _ => []
  | _ + 1, _, [] => []
  | fuel + 1, prevW, c :: cs =>
    match tryCrossRef prevW (c :: cs) with
    | some (g, rest) => g :: findCrossRefsAux fuel true rest
    | none => findCrossRefsAux fuel (isWordChar c) cs

/-- All matches of the section-triple body pattern in a string. -/
def crossRefMatches (s : String) :
    List ((Char × Char) × (Char × Char) × (Char × Char)) :=
  findCrossRefsAux (s.data.length + 1) false s.data

/-- The `Section\s+\d{2}\s+\d{2}\s+\d{2}` listing pattern of `is_toc_page`
(`re.IGNORECASE`, no word boundaries). -/
def trySectionListing (cs : List Char) : Option (Unit × List Char) :=
  match litSectionCI cs with
  | none => none
  | some r0 =>
    match skipSpaces1 r0 with
    | none => none
    | some r1 =>
      match digit2 r1 with
      | none => none
      | some (_, r2) =>
        match skipSpaces1 r2 with
        | none => none
        | some r3 =>
          match digit2 r3 with
          | none => none
          | some (_, r4) =>
            match skipSpaces1 r4 with
            | none => none
            | some r5 =>
              match digit2 r5 with
              | none => none
              | some (_, r6) => some ((), r6)

/-- `re.search`: first position (left to right) where the matcher fires. -/
def searchL {γ : Type} (tryAt : List Char → Option γ) : List Char → Option γ
  | [] => tryAt []
  | c :: cs =>
    match tryAt (c :: cs) with
    | some g => some g
    | none => searchL tryAt cs

/-- `re.finditer`: all non-overlapping matches, resuming after each match
end (our patterns never match the empty string; the fuel only serves
termination). -/
def findAllAux {γ : Type} (tryAt : List Char → Option (γ × List Char)) :
    Nat → List Char → List γ
  | 0, _ => []
  | _ + 1, [] => []
  | fuel + 1, c :: cs =>
    match tryAt (c :: cs) with
    | some (g, rest) => g :: findAllAux tryAt fuel rest
    | none => findAllAux tryAt fuel cs

/-- All matches of a pattern in a string. -/
def findAllStr {γ : Type} (tryAt : List Char → Option (γ × List Char))
    (s : String) : List γ :=
  findAllAux tryAt (s.data.length + 1) s.data

/-! ### FormatDetector (`detect_spec_format`) -/

/-- The header region `text[:600]` (whole text when at most 600 chars). -/
def headerRegionOf (text : String) : String :=
  if text.length > 600 then pyTakeStr text 600 else text

/-- The footer region `text[-600:]` (whole text when at most 600 chars). -/
def footerRegionOf (text : String) : String :=
  if text.length > 600 then ⟨text.data.drop (text.data.length - 600)⟩
  else text

/-- The `header + "\n" + footer` search text built by `detect_spec_format`
(first/last 600 characters, upper-cased; short pages use the whole text for
both regions). -/
def formatSearchText (text : String) : String :=
  pyUpper (headerRegionOf text) ++ "\n" ++ pyUpper (footerRegionOf text)

/-- The per-family page-hit counters of `detect_spec_format`
(compact_page, spaced_page, section_compact, section_spaced): each sampled
page increments a family by one when the family's pattern matches anywhere
in its search text. -/
def formatPageHits (pages_sample : List String) : Nat × Nat × Nat × Nat :=
  pages_sample.foldl
    (fun acc text =>
      if text = "" then acc
      else
        let st := (formatSearchText text).data
        (acc.1 + (if (searchL tryCompactPage st).isSome then 1 else 0),
         acc.2.1 + (if (searchL trySpacedPageDetect st).isSome then 1 else 0),
         acc.2.2.1 + (if (searchL trySectionCompact st).isSome then 1 else 0),
         acc.2.2.2 + (if (searchL trySectionSpacedDetect st).isSome then 1 else 0)))
    (0, 0, 0, 0)

/-- `detect_spec_format(pages_sample)`: the family with the most page hits,
ties resolved by dict insertion order (Python `max` returns the first key
attaining the maximum), `"none"` when no family hit any page. -/
def detect_spec_format (pages_sample : List String) : String :=
  let h := formatPageHits pages_sample
  if h.1 = 0 ∧ h.2.1 = 0 ∧ h.2.2.1 = 0 ∧ h.2.2.2 = 0 then "none"
  else if h.2.1 ≤ h.1 ∧ h.2.2.1 ≤ h.1 ∧ h.2.2.2 ≤ h.1 then "compact_page"
  else if h.2.2.1 ≤ h.2.1 ∧ h.2.2.2 ≤ h.2.1 then "spaced_page"
  else if h.2.2.2 ≤ h.2.2.1 then "section_compact"
  else "section_spaced"

/-- Modelled from the spec: the spec's reading of §4.1 in which a family's
score is the *total number of regex matches* over all sampled pages (each
match counted, not each page).  Only used to compare the spec's wording
against the code's page-hit counting. -/
def countFormatMatches (fmt : String) (st : String) : Nat :=
  if fmt = "compact_page" then (findAllStr tryCompactPage st).length
  else if fmt = "spaced_page" then (findAllStr trySpacedPageDetect st).length
  else if fmt = "section_compact" then (findAllStr trySectionCompact st).length
  else if fmt = "section_spaced" then (findAllStr trySectionSpacedDetect st).length
  else 0

/-- Modelled from the spec: total hits of a family across the sample. -/
def specTotalHits (fmt : String) (pages_sample : List String) : Nat :=
  (pages_sample.map (fun t =>
    if t = "" then 0 else countFormatMatches fmt (formatSearchText t))).sum

/-! ### ContentPatternClassifier (`detect_division_from_content`) -/

/-- The `[header, footer]` regions used by `detect_division_from_content`
(upper-cased, first/last 600 characters). -/
def searchRegions (text : String) : List (List Char) :=
  [(pyUpper (headerRegionOf text)).data, (pyUpper (footerRegionOf text)).data]

/-- `extract_section` of `detect_division_from_content`, compact formats:
normalise `div ++ rest` to a spaced six-digit section (5-digit codes get the
last group right-padded with `0`), rejecting non-trade divisions. -/
def extract_section_compact (dv : Char × Char) (rest : List Char) :
    Option (String × String) :=
  let div := g2s dv
  if div ∈ VALID_DIVISIONS ∧ div ∉ (["00", "01"] : List String) then
    if rest.length = 3 then
      some (div ++ " " ++ (⟨rest.take 2⟩ : String) ++ " " ++
            (⟨rest.drop 2⟩ : String) ++ "0", div)
    else
      some (div ++ " " ++ (⟨rest.take 2⟩ : String) ++ " " ++
            (⟨rest.drop 2⟩ : String), div)
  else none

/-- `extract_section` of `detect_division_from_content`, spaced formats:
missing third group defaults to `"00"`, optional dotted sub-section kept. -/
def extract_section_spaced (g : SpacedG) : Option (String × String) :=
  let div := g2s g.dv
  if div ∈ VALID_DIVISIONS ∧ div ∉ (["00", "01"] : List String) then
    let g3str : String := match g.g3 with | some p => g2s p | none => "00"
    let base := div ++ " " ++ g2s g.g2 ++ " " ++ g3str
    let sec := match g.sub with
      | some ds => base ++ "." ++ (⟨ds⟩ : String)
      | none => base
    some (sec, div)
  else none

/-- Search one region with one family's pattern and run `extract_section`. -/
def matchAndExtract (fmt : String) (region : List Char) :
    Option (String × String) :=
  if fmt = "compact_page" then
    match searchL tryCompactPage region with
    | some (g, _) => extract_section_compact g.1 g.2
    | none => none
  else if fmt = "spaced_page" then
    match searchL tryContentSpaced region with
    | some (g, _) => extract_section_spaced g
    | none => none
  else if fmt = "section_compact" then
    match searchL trySectionCompact region with
    | some (g, _) => extract_section_compact g.1 g.2
    | none => none
  else if fmt = "section_spaced" then
    match searchL trySectionSpacedContent region with
    | some (g, _) => extract_section_spaced g
    | none => none
  else none

/-- Try the regions in order; a region whose first match has an invalid
division falls through to the next region, as in the Python loop. -/
def firstRegionMatch (step : List Char → Option (String × String)) :
    List (List Char) → Option (String × String)
  | [] => none
  | r :: rs =>
    match step r with
    | some x => some x
    | none => firstRegionMatch step rs

/-- The `"auto"` legacy mode: all four families in the fixed order
spaced_page, compact_page, section_spaced, section_compact. -/
def autoScan (regions : List (List Char)) : Option (String × String) :=
  match firstRegionMatch (matchAndExtract "spaced_page") regions with
  | some x => some x
  | none =>
    match firstRegionMatch (matchAndExtract "compact_page") regions with
    | some x => some x
    | none =>
      match firstRegionMatch (matchAndExtract "section_spaced") regions with
      | some x => some x
      | none => firstRegionMatch (matchAndExtract "section_compact") regions

/-- The `DIVISION XX` fallback of `detect_division_from_content` (auto mode
only): zero-filled division, rejected unless a whitelisted trade division. -/
def divisionFallback : List (List Char) → Option (String × String)
  | [] => none
  | r :: rs =>
    match searchL tryDivisionPat r with
    | some (g, _) =>
      let div := zfill2 g
      if div ∈ VALID_DIVISIONS ∧ div ∉ (["00", "01"] : List String) then
        some (div ++ " 00 00", div)
      else divisionFallback rs
    | none => divisionFallback rs

/-- `detect_division_from_content(text, spec_format)` from parser.py. -/
def detect_division_from_content (text : String) (spec_format : String) :
    Option String × Option String :=
  if text = "" ∨ text.length < 100 then (none, none)
  else if spec_format = "none" then (none, none)
  else
    let regions := searchRegions text
    if spec_format ∈ (["compact_page", "spaced_page", "section_compact",
        "section_spaced"] : List String) then
      match firstRegionMatch (matchAndExtract spec_format) regions with
      | some (s, d) => (some s, some d)
      | none => (none, none)
    else
      match autoScan regions with
      | some (s, d) => (some s, some d)
      | none =>
        match divisionFallback regions with
        | some (s, d) => (some s, some d)
        | none => (none, none)

/-! ### Footer tier helper (`extract_section_from_footer`) -/

/-- Build `"d1 d2 d3[.sub]"` from captured groups. -/
def footerSectionOf (g : FooterG) : String :=
  let base := g2s g.d1 ++ " " ++ g2s g.d2 ++ " " ++ g2s g.d3
  match g.sub with
  | some ds => base ++ "." ++ (⟨ds⟩ : String)
  | none => base

/-- Guarded result construction of `extract_section_from_footer`: a match is
returned only when `is_valid_division` accepts its three groups. -/
def footerGroupsToResult (g : FooterG) : Option (String × String) :=
  if is_valid_division (g2s g.d1) (g2s g.d2) (g2s g.d3) then
    some (footerSectionOf g, g2s g.d1)
  else none

/-- One attempt of `extract_section_from_footer`: search a region with a
pattern and validate the first match's groups. -/
def footerAttempt (tryAt : List Char → Option (FooterG × List Char))
    (region : List Char) : Option (String × String) :=
  (searchL tryAt region).bind (fun g => footerGroupsToResult g.1)

/-- `extract_section_from_footer(text)` from parser.py: strict pattern in
the footer region, then in the header region, then the `SECTION …` header
pattern; an attempt whose (first) match fails validation falls through to
the next attempt. -/
def extract_section_from_footer (text : String) :
    Option String × Option String :=
  if text = "" ∨ text.length < 100 then (none, none)
  else
    match footerAttempt tryStrictFooter (footerRegionOf text).data with
    | some (s, d) => (some s, some d)
    | none =>
      match footerAttempt tryStrictFooter (headerRegionOf text).data with
      | some (s, d) => (some s, some d)
      | none =>
        match footerAttempt trySectionHeaderFooter (headerRegionOf text).data with
        | some (s, d) => (some s, some d)
        | none => (none, none)

/-! ### CrossReferenceExtractor (`extract_cross_references`) -/

/-- Lexicographic (code-point) comparison, Python string `<`. -/
def strLtAux : List Char → List Char → Bool
  | [], [] => false
  | [], _ :: _ => true
  | _ :: _, [] => false
  | c :: cs, d :: ds =>
    if c < d then true else if d < c then false else strLtAux cs ds

/-- Python string `<`. -/
def strLt (a b : String) : Bool :=
  strLtAux a.data b.data

/-- Insert into a strictly sorted list, dropping duplicates. -/
def insertSorted (x : String) : List String → List String
  | [] => [x]
  | y :: ys =>
    if strLt x y then x :: y :: ys
    else if x = y then y :: ys
    else y :: insertSorted x ys

/-- Python `sorted(list(set(l)))`. -/
def sortedDedup (l : List String) : List String :=
  l.foldl (fun acc x => insertSorted x acc) []

/-- The reference string `"d1 d2 d3"` of one triple match. -/
def crossRefOf (m : (Char × Char) × (Char × Char) × (Char × Char)) : String :=
  g2s m.1 ++ " " ++ g2s m.2.1 ++ " " ++ g2s m.2.2

/-- The self-reference test `own_section and ref == own_section[:11]`
(Python truthiness: an empty own section never excludes anything). -/
def crossRefSelf (own_section : Option String) (ref : String) : Bool :=
  match own_section with
  | some own => own != "" && ref == pyTakeStr own 11
  | none => false

/-- `extract_cross_references(text, own_section)` from parser.py: all body
matches of the triple pattern, minus the own section (compared against
`own_section[:11]`, with Python truthiness on `own_section`), kept only when
`is_valid_division` accepts them, returned as a sorted duplicate-free
list. -/
def extract_cross_references (text : String) (own_section : Option String) :
    List String :=
  sortedDedup ((crossRefMatches text).foldl
    (fun acc m =>
      if crossRefSelf own_section (crossRefOf m) then acc
      else if is_valid_division (g2s m.1) (g2s m.2.1) (g2s m.2.2) then
        acc ++ [crossRefOf m]
      else acc)
    ([] : List String))

/-! ### Page records and range assignment -/

/-- One page record of `parse_spec` (the constant `spec_id` field is
omitted; `cross_refs` is `None` or a nonempty list, as stored for the
database). -/
structure PageRec where
  page_number : Nat
  content : String
  char_count : Nat
  section_number : Option String
  division_code : Option String
  classification_method : Option String
  cross_refs : Option (List String)
deriving DecidableEq, Repr, Inhabited

/-- The shared start-page range loop of `assign_pages_from_outline` and
`apply_section_map`: scan the (start-page sorted) entries; the first entry
whose range `[start, nextStart)` (last entry open-ended) contains the page
wins; pages before every start get nothing. -/
def findRange : List (String × Nat) → Nat → Option String
  | [], _ => none
  | (s, st) :: rest, p =>
    if st ≤ p then
      match rest with
      | [] => some s
      | (_, st2) :: _ =>
        if p < st2 then some s else findRange rest p
    else findRange rest p

/-- Stable insertion by start page (Python `sorted(..., key=lambda x: x[1])`
keeps insertion order among equal keys). -/
def insertByStart (x : String × Nat) : List (String × Nat) → List (String × Nat)
  | [] => [x]
  | y :: ys => if y.2 ≤ x.2 then y :: insertByStart x ys else x :: y :: ys

/-- Python `sorted(map.items(), key=lambda x: x[1])`. -/
def sortByStart (m : List (String × Nat)) : List (String × Nat) :=
  m.foldl (fun acc x => insertByStart x acc) []

/-- Per-page body of `apply_section_map`: already classified pages are
skipped; otherwise the range assignment writes section, its two-character
prefix as division, and the map source as method. -/
def pageAssign (sorted_sections : List (String × Nat)) (source : String)
    (page : PageRec) : PageRec :=
  if page.section_number ≠ none ∨ page.division_code ≠ none then page
  else
    match findRange sorted_sections page.page_number with
    | some s =>
      { page with section_number := some s,
                  division_code := some (pyTakeStr s 2),
                  classification_method := some source }
    | none => page

/-- `apply_section_map(pages, section_map, source)` from parser.py. -/
def apply_section_map (pages : List PageRec) (section_map : List (String × Nat))
    (source : String) : List PageRec :=
  if section_map.isEmpty then pages
  else pages.map (pageAssign (sortByStart section_map) source)

/-! ### Tier 0: PDF outline -/

/-- First-occurrence-wins insertion (`if section not in section_to_page`). -/
def dictInsertFirstWins (m : List (String × Nat)) (k : String) (v : Nat) :
    List (String × Nat) :=
  if m.any (fun e => e.1 = k) then m else m ++ [(k, v)]

/-- `extract_pdf_outline` from parser.py, over the `(title, page)` entries
of the PDF's table of bookmarks: parse each title for a CSI code, keep
whitelisted divisions (first occurrence wins), and discard the whole outline
when it contains no trade division beyond 00/01. -/
def extract_pdf_outline (toc : List (String × Nat)) : List (String × Nat) :=
  if toc.isEmpty then []
  else
    let section_to_page := toc.foldl
      (fun m entry =>
        match searchL tryOutlineSection entry.1.data with
        | some (g, _) =>
          if g2s g.d1 ∈ VALID_DIVISIONS then
            dictInsertFirstWins m (footerSectionOf g) entry.2
          else m
        | none => m)
      ([] : List (String × Nat))
    let trade := section_to_page.filter
      (fun e => pyTakeStr e.1 2 ∉ (["00", "01"] : List String))
    if trade.isEmpty then [] else section_to_page

/-- Per-page body of `assign_pages_from_outline`: outline range assignment,
then the unconditional content scan with its two override rules. -/
def assignPageOutline (sorted_sections : List (String × Nat))
    (outlineDivs : List String) (spec_format : String) (page : PageRec) :
    PageRec :=
  let assigned := findRange sorted_sections page.page_number
  let page1 := match assigned with
    | some s =>
      { page with section_number := some s,
                  division_code := some (pyTakeStr s 2),
                  classification_method := some "outline" }
    | none => page
  match detect_division_from_content page.content spec_format with
  | (some cs, some cd) =>
    if cd ∉ outlineDivs then
      { page1 with section_number := some cs, division_code := some cd,
                   classification_method := some "content" }
    else
      match assigned with
      | some s =>
        if pyTakeStr s 2 ∈ (["00", "01"] : List String) then
          { page1 with section_number := some cs, division_code := some cd,
                       classification_method := some "outline+" }
        else page1
      | none => page1
  | _ => page1

/-- `assign_pages_from_outline(pages, outline_map, spec_format)`. -/
def assign_pages_from_outline (pages : List PageRec)
    (outline_map : List (String × Nat)) (spec_format : String) :
    List PageRec :=
  if outline_map.isEmpty then pages
  else
    pages.map (assignPageOutline (sortByStart outline_map)
      (outline_map.map (fun e => pyTakeStr e.1 2)) spec_format)

/-! ### Tier 1: textual TOC / Index -/

/-- TOC marker substrings of `find_toc_pages`. -/
def TOC_MARKERS : List String :=
  ["TABLE OF CONTENTS", "CONTENTS", "INDEX OF SPECIFICATIONS",
   "SPECIFICATION INDEX"]

/-- Index marker substrings of `find_index_pages`. -/
def INDEX_MARKERS : List String :=
  ["INDEX", "SPECIFICATION INDEX", "SECTION INDEX", "INDEX OF SECTIONS"]

/-- `find_toc_pages(pages)`: first 50 pages with a TOC marker and at least
five section-triple matches. -/
def find_toc_pages (pages : List PageRec) : List Nat :=
  ((pages.take 50).filter fun page =>
    let text := pyUpper page.content
    (TOC_MARKERS.any fun m => containsStr text m) &&
      decide (5 ≤ (crossRefMatches text).length)).map (·.page_number)

/-- `find_index_pages(pages)`: last 50 pages with an Index marker and at
least five section-triple matches. -/
def find_index_pages (pages : List PageRec) : List Nat :=
  let last50 := if pages.length > 50 then pages.drop (pages.length - 50)
                else pages
  (last50.filter fun page =>
    let text := pyUpper page.content
    (INDEX_MARKERS.any fun m => containsStr text m) &&
      decide (5 ≤ (crossRefMatches text).length)).map (·.page_number)

/-- `is_toc_page(text)` from parser.py. -/
def is_toc_page (text : String) : Bool :=
  let textUpper := pyUpper text
  if containsStr textUpper "TABLE OF CONTENTS" then true
  else if containsStr textUpper "INDEX OF SPECIFICATIONS" then true
  else if containsStr textUpper "SPECIFICATION INDEX" then true
  else if 3 < (findAllStr trySectionListing text).length then true
  else if 8 < (crossRefMatches text).length then true
  else false

/-- Last-occurrence-wins dict insertion (`section_to_page[section] = n`). -/
def dictInsertLastWins : List (String × Nat) → String → Nat →
    List (String × Nat)
  | [], k, v => [(k, v)]
  | (k0, v0) :: rest, k, v =>
    if k0 = k then (k0, v) :: rest
    else (k0, v0) :: dictInsertLastWins rest k v

/-- Build `"d1 d2 d3[.sub]"` from TOC-line groups. -/
def tocSectionOf (g : TocG) : String :=
  let base := g2s g.d1 ++ " " ++ g2s g.d2 ++ " " ++ g2s g.d3
  match g.sub with
  | some ds => base ++ "." ++ (⟨ds⟩ : String)
  | none => base

/-- `parse_toc(toc_text)` from parser.py: every TOC-line match with a
whitelisted division and a page number in 1..5000 enters the map (later
lines overwrite earlier ones). -/
def parse_toc (toc_text : String) : List (String × Nat) :=
  (findAllStr tryTocLine toc_text).foldl
    (fun m g =>
      if g2s g.d1 ∈ VALID_DIVISIONS then
        let page_num := pyInt ⟨g.pageDigits⟩
        if 1 ≤ page_num ∧ page_num ≤ 5000 then
          dictInsertLastWins m (tocSectionOf g) page_num
        else m
      else m)
    ([] : List (String × Nat))

/-- Python `"\n".join`. -/
def joinNl : List String → String
  | [] => ""
  | [s] => s
  | s :: rest => s ++ "\n" ++ joinNl rest

/-- The concatenated text of the pages with the given page numbers. -/
def pagesTextFor (pages : List PageRec) (nums : List Nat) : String :=
  joinNl ((pages.filter fun p => decide (p.page_number ∈ nums)).map (·.content))

/-- `find_best_toc_map(pages, total_pages)` from parser.py: parse and
validate TOC and Index candidates, keep the larger (Index wins strictly). -/
def find_best_toc_map (pages : List PageRec) (total_pages : Nat) :
    List (String × Nat) × String :=
  let toc_pages := find_toc_pages pages
  let index_pages := find_index_pages pages
  let toc_map :=
    if toc_pages.isEmpty then []
    else
      let raw := parse_toc (pagesTextFor pages toc_pages)
      if raw.isEmpty then [] else validate_toc_map raw total_pages
  let index_map :=
    if index_pages.isEmpty then []
    else
      let raw := parse_toc (pagesTextFor pages index_pages)
      if raw.isEmpty then [] else validate_toc_map raw total_pages
  if toc_map.length < index_map.length then (index_map, "index")
  else if !toc_map.isEmpty then (toc_map, "toc")
  else ([], "")

/-! ### The remaining pipeline stages of `parse_spec` -/

/-- The TOC-page pre-tagging loop of `parse_spec`: pages without a section
number that look like TOC/Index pages become division 00 / `toc_page`. -/
def preTagTocPages (pages : List PageRec) : List PageRec :=
  pages.map fun page =>
    if page.section_number ≠ none then page
    else if is_toc_page page.content then
      { page with division_code := some "00",
                  classification_method := some "toc_page" }
    else page

/-- Tier 2 loop of `parse_spec`: still-unclassified pages get the
content-pattern result as method `footer`. -/
def footerTier (pages : List PageRec) (spec_format : String) : List PageRec :=
  pages.map fun page =>
    if page.section_number ≠ none ∨ page.division_code ≠ none then page
    else
      match detect_division_from_content page.content spec_format with
      | (some s, d) =>
        { page with section_number := some s, division_code := d,
                    classification_method := some "footer" }
      | _ => page

/-- The first inheritance pass of `parse_spec`. -/
def inheritPass : List PageRec → Option String → Option String → List PageRec
  | [], _, _ => []
  | page :: rest, prevSec, prevDiv =>
    if page.division_code ≠ none then
      page :: inheritPass rest page.section_number page.division_code
    else if prevDiv ≠ none then
      { page with section_number := prevSec, division_code := prevDiv,
                  classification_method := some "inherit" }
        :: inheritPass rest prevSec prevDiv
    else page :: inheritPass rest prevSec prevDiv

/-- The second inheritance pass of `parse_spec` (after AI), anchored on
AI-classified pages first. -/
def inheritPassAfterAi :
    List PageRec → Option String → Option String → List PageRec
  | [], _, _ => []
  | page :: rest, prevSec, prevDiv =>
    if page.classification_method = some "ai" then
      page :: inheritPassAfterAi rest page.section_number page.division_code
    else if page.division_code = none ∧ prevDiv ≠ none then
      { page with section_number := prevSec, division_code := prevDiv,
                  classification_method := some "inherit" }
        :: inheritPassAfterAi rest prevSec prevDiv
    else if page.division_code ≠ none then
      page :: inheritPassAfterAi rest page.section_number page.division_code
    else page :: inheritPassAfterAi rest prevSec prevDiv

/-! ### Tier 3: AI classification -/

/-- Outcome of one oracle batch call: `failure` covers a non-2xx response, a
transport exception, or a response from which no JSON list could be read
(all of which parser.py maps to the `"01"` default for the whole batch);
`ok` carries the decoded JSON list of codes, already stringified. -/
inductive BatchResult where
  | failure : BatchResult
  | ok : List String → BatchResult

/-- Python `str(code).zfill(2)[:2]`. -/
def zfill2take2 (s : String) : String :=
  ⟨(List.replicate (2 - s.length) '0' ++ s.data).take 2⟩

/-- The pad/truncate/validate tail of `_parse_ai_response`. -/
def validate_ai_codes (results : List String) (expected : Nat) : List String :=
  let adjusted :=
    if results.length < expected then
      results ++ List.replicate (expected - results.length) "01"
    else results.take expected
  adjusted.map fun code =>
    let c := zfill2take2 code
    if c ∈ VALID_DIVISIONS then c else "01"

/-- Chunking of the unclassified pages into batches of at most `n`. -/
def batchesOfAux {α : Type} (n : Nat) : Nat → List α → List (List α)
  | 0, _ => []
  | _ + 1, [] => []
  | fuel + 1, l => l.take n :: batchesOfAux n fuel (l.drop n)

/-- `range(0, total, AI_BATCH_SIZE)` batching. -/
def batchesOf {α : Type} (n : Nat) (l : List α) : List (List α) :=
  batchesOfAux n l.length l

/-- `AI_BATCH_SIZE` from parser.py. -/
def AI_BATCH_SIZE : Nat := 100

/-- The per-batch loop of `_ai_classify_pages_async`: a failed batch
contributes `["01"] * len(batch)`, a decoded one goes through
`_parse_ai_response`'s pad/truncate/validate. -/
def ai_classify_batches (oracle : Nat → BatchResult) :
    Nat → List (List PageRec) → List String
  | _, [] => []
  | i, b :: bs =>
    (match oracle i with
     | BatchResult.failure => List.replicate b.length "01"
     | BatchResult.ok results => validate_ai_codes results b.length)
      ++ ai_classify_batches oracle (i + 1) bs

/-- `ai_classify_pages(pages)` from parser.py, with the API-key presence and
the per-batch oracle outcomes abstracted as inputs. -/
def ai_classify_pages (hasKey : Bool) (oracle : Nat → BatchResult)
    (pages : List PageRec) : List String :=
  if !hasKey then List.replicate pages.length "01"
  else if pages.isEmpty then []
  else ai_classify_batches oracle 0 (batchesOf AI_BATCH_SIZE pages)

/-- The AI application loop of `parse_spec`:
`zip(unclassified_pages, ai_divisions)` over the shared page records — each
still-unclassified page consumes the next division code and becomes
`division`, section `"{division} 00 00"`, method `ai`. -/
def applyAiClassifications : List PageRec → List String → List PageRec
  | [], _ => []
  | p :: ps, divs =>
    if p.division_code = none then
      match divs with
      | [] => p :: applyAiClassifications ps []
      | d :: ds =>
        { p with division_code := some d,
                 section_number := some (d ++ " 00 00"),
                 classification_method := some "ai" }
          :: applyAiClassifications ps ds
    else p :: applyAiClassifications ps divs

/-- Tier 3 of `parse_spec`: runs only when fewer than half the pages are
classified (`classified / len(pages) < 0.5`, modelled exactly as
`2 * classified < len(pages)`), then re-runs inheritance. -/
def aiStage (hasKey : Bool) (oracle : Nat → BatchResult)
    (pages : List PageRec) : List PageRec :=
  let unclassified := pages.filter fun p => p.division_code = none
  if unclassified.isEmpty then pages
  else
    let classified := pages.length - unclassified.length
    if classified * 2 < pages.length then
      let ai_divisions := ai_classify_pages hasKey oracle unclassified
      inheritPassAfterAi (applyAiClassifications pages ai_divisions) none none
    else pages

/-- The final cross-reference loop of `parse_spec` (empty lists become
`None`). -/
def crossRefStage (pages : List PageRec) : List PageRec :=
  pages.map fun page =>
    let refs := extract_cross_references page.content page.section_number
    { page with cross_refs := if refs.isEmpty then none else some refs }

/-! ### `parse_spec` -/

/-- The characters stripped by `clean_text` (NUL, zero-width space,
zero-width non-joiner, zero-width joiner, BOM, soft hyphen). -/
def PROBLEM_CHARS : List Char :=
  ['\x00', '\u200B', '\u200C', '\u200D', '\uFEFF', '\u00AD']

/-- `clean_text(text)` from parser.py. -/
def clean_text (text : String) : String :=
  if text = "" then ""
  else ⟨text.data.filter (fun c => !(PROBLEM_CHARS.contains c))⟩

/-- The page-extraction loop of `parse_spec`: page `i` (1-based number
`i+1`) is kept only when its cleaned text is nonempty and its stripped
length is at least 50; dropped pages produce no record at all. -/
def extractPages (doc : List String) : List PageRec :=
  (List.range doc.length).filterMap fun i =>
    let text := clean_text (doc.getD i "")
    if text = "" ∨ (pyStrip text).length < 50 then none
    else
      some { page_number := i + 1, content := text, char_count := text.length,
             section_number := none, division_code := none,
             classification_method := none, cross_refs := none }

/-- The classification stages of `parse_spec` after page extraction and
format detection. -/
def parseSpecStages (pages0 : List PageRec) (outline_map : List (String × Nat))
    (spec_format : String) (total_pages : Nat) (hasKey : Bool)
    (oracle : Nat → BatchResult) : List PageRec :=
  let pages1 := if outline_map.isEmpty then pages0
                else assign_pages_from_outline pages0 outline_map spec_format
  let pages2 := preTagTocPages pages1
  let best := find_best_toc_map pages2 total_pages
  let pages3 := apply_section_map pages2 best.1 best.2
  let pages4 := footerTier pages3 spec_format
  let pages5 := inheritPass pages4 none none
  let pages6 := aiStage hasKey oracle pages5
  crossRefStage pages6

/-- `parse_spec` from parser.py, over the extracted page texts (`doc`, one
string per PDF page), the PDF outline entries, and the abstract oracle; the
division-summary block at the end of the Python function only reads the
page records, so the embedding returns the final page records. -/
def parse_spec (doc : List String) (pdfToc : List (String × Nat))
    (hasKey : Bool) (oracle : Nat → BatchResult) : List PageRec :=
  parseSpecStages (extractPages doc) (extract_pdf_outline pdfToc)
    (detect_spec_format (((extractPages doc).take 50).map (·.content)))
    doc.length hasKey oracle

/-! ### Auxiliary definitions for the claim theorems -/

/-- The outline stage of `parse_spec` in isolation (the `pages1` step of
`parseSpecStages`). -/
def outlineStage (pages0 : List PageRec) (outline_map : List (String × Nat))
    (spec_format : String) : List PageRec :=
  if outline_map.isEmpty then pages0
  else assign_pages_from_outline pages0 outline_map spec_format

/-- A page record as the outline tier leaves it (method `outline`). -/
def exC5Page : PageRec :=
  { page_number := 1, content := "X", char_count := 1,
    section_number := some "03 30 00", division_code := some "03",
    classification_method := some "outline", cross_refs := none }

/-- A still-unclassified page record on page 1. -/
def exC5Plain : PageRec :=
  { page_number := 1, content := "X", char_count := 1,
    section_number := none, division_code := none,
    classification_method := none, cross_refs := none }

/-- The `(page, section)` boundaries implicit in the AI tier's result: the
i-th returned division code belongs to the i-th unclassified page, with the
generic section `"{code} 00 00"` (shaped as `(section, startPage)` so it can
feed `apply_section_map`). -/
def aiBoundaries (pages : List PageRec) (divs : List String) :
    List (String × Nat) :=
  List.zipWith (fun (p : PageRec) (d : String) => (d ++ " 00 00", p.page_number))
    (pages.filter fun p => p.division_code = none) divs

/-- The page-record invariant of the spec's data model: division code and
classification method are set together; a set section number implies a set
division code and begins with it (its two-character prefix); a set division
code is whitelisted. -/
def pageInv (p : PageRec) : Prop :=
  (p.division_code.isSome ↔ p.classification_method.isSome) ∧
  (p.section_number.isSome → p.division_code.isSome) ∧
  (∀ s d, p.section_number = some s → p.division_code = some d →
    pyTakeStr s 2 = d) ∧
  (∀ d, p.division_code = some d → d ∈ VALID_DIVISIONS)

/-- Post-condition of the content-pattern extractors: a whitelisted trade
division that prefixes its section string. -/
def divOk (s d : String) : Prop :=
  d ∈ VALID_DIVISIONS ∧ d ∉ (["00", "01"] : List String) ∧ pyTakeStr s 2 = d

/-- The four format-family names in dict insertion order. -/
def familyNames : List String :=
  ["compact_page", "spaced_page", "section_compact", "section_spaced"]

/-- Page-hit count of one family. -/
def famHit (fmt : String) (h : Nat × Nat × Nat × Nat) : Nat :=
  if fmt = "compact_page" then h.1
  else if fmt = "spaced_page" then h.2.1
  else if fmt = "section_compact" then h.2.2.1
  else if fmt = "section_spaced" then h.2.2.2
  else 0

/-- Tie-break priority of one family (dict insertion order). -/
def famPriority (fmt : String) : Nat :=
  if fmt = "compact_page" then 0
  else if fmt = "spaced_page" then 1
  else if fmt = "section_compact" then 2
  else if fmt = "section_spaced" then 3
  else 4

/-- A page whose footer carries the date-shaped code `04 15 23`. -/
def exFooterDateText : String :=
  "".pushn 'X' 100 ++ "\n04 15 23 - 5\n"

/-- A page whose footer carries the date-shaped code `04 16 23`. -/
def exFooter16Text : String :=
  "".pushn 'X' 100 ++ "\n04 16 23 - 1\n"

/-- A page body mentioning only its own section. -/
def exSelfRefText : String :=
  "Please see Section 07 92 00 for joint sealant requirements."

/-- A page body mentioning one other section. -/
def exOtherRefText : String :=
  "Please see Section 04 22 00 for unit masonry requirements."

/-- Format-detector sample page with three compact matches. -/
def exFmtA : String :=
  "042200 - 1   042200 - 2   042200 - 3"

/-- Format-detector sample page with one spaced match. -/
def exFmtB : String :=
  "04 22 00 - 1"

/-- A fresh unclassified page record. -/
def exUnclassifiedPage : PageRec :=
  { page_number := 1, content := "", char_count := 0, section_number := none,
    division_code := none, classification_method := none, cross_refs := none }

/-- A footer-classified page record (page 2). -/
def exClassifiedPage : PageRec :=
  { page_number := 2, content := "", char_count := 0,
    section_number := some "03 30 00", division_code := some "03",
    classification_method := some "footer", cross_refs := none }

/-- Pages 1 and 3 unclassified around a classified page 2. -/
def exAiPages : List PageRec :=
  [exUnclassifiedPage, exClassifiedPage,
   { exUnclassifiedPage with page_number := 3 }]

/-- AI division codes for the two unclassified pages of `exAiPages`. -/
def exAiDivs : List String :=
  ["04", "26"]

/-- Claim C2 (counterexample): the candidate code (04, 29, 25) satisfies the
claim's date condition — mid in 1..31, last in 20..35, mid not in the
allowlist — with a whitelisted division, yet `is_valid_division` accepts it
(the code additionally requires mid ≤ 28 before rejecting).  So the claim's
"returns false exactly when ..." is false as stated. -/
theorem C2_counterexample :
    ¬ ((1 ≤ pyInt "29" ∧ pyInt "29" ≤ 31 ∧ 20 ≤ pyInt "25" ∧ pyInt "25" ≤ 35 ∧
        pyInt "29" ∉ COMMON_SECTION_MIDS ∧ "04" ∈ VALID_DIVISIONS) →
      is_valid_division "04" "29" "25" = false) := by
  decide

/-- Claim C2 (amended): for a whitelisted division, `is_valid_division`
returns false exactly when 1 ≤ mid ≤ 28 (not 31), 20 ≤ last ≤ 35, and mid is
not in the fixed allowlist. -/
theorem C2_date_heuristic (d1 d2 d3 : String) (h : d1 ∈ VALID_DIVISIONS) :
    is_valid_division d1 d2 d3 = false ↔
      (1 ≤ pyInt d2 ∧ pyInt d2 ≤ 28 ∧ 20 ≤ pyInt d3 ∧ pyInt d3 ≤ 35 ∧
        pyInt d2 ∉ COMMON_SECTION_MIDS) := by
  unfold is_valid_division
  rw [if_pos h]
  split_ifs with hdate hmid
  · exact ⟨fun _ => ⟨hmid.2.1, hmid.2.2, hdate.2.2.1, hdate.2.2.2, hmid.1⟩,
      fun _ => rfl⟩
  · refine iff_of_false (by simp) (fun hp => hmid ?_)
    exact ⟨hp.2.2.2.2, hp.1, hp.2.1⟩
  · refine iff_of_false (by simp) (fun hp => hdate ?_)
    exact ⟨hp.1, by omega, hp.2.2.1, hp.2.2.2.1⟩

/-- Claim C2 witness: the instance (04, 16, 23) is rejected by the amended
condition. -/
theorem C2_witness : is_valid_division "04" "16" "23" = false :=
  (C2_date_heuristic "04" "16" "23" (by decide)).mpr (by decide)

/-- Claim C6: `validate_toc_map` on a nonempty candidate map either discards
it entirely (when the page numbers look like TOC row order, are all below 10,
or fail to span 20% of the document) or returns it unchanged. -/
theorem C6_toc_validation (m : List (String × Nat)) (tp : Nat) (h : m ≠ []) :
    validate_toc_map m tp =
      (if (listMax (m.map (·.2)) ≤ 20 ∧ listMin (m.map (·.2)) ≤ 2) ∨
          listMax (m.map (·.2)) < 10 ∨
          ((listMax (m.map (·.2)) : ℚ) < (tp : ℚ) * (1 / 5)) then []
       else m) := by
  unfold validate_toc_map
  rw [if_neg (by simpa [List.isEmpty_iff] using h)]
  by_cases h1 : listMax (m.map (·.2)) ≤ 20 ∧ listMin (m.map (·.2)) ≤ 2
  · simp [h1]
  · by_cases h2 : listMax (m.map (·.2)) < 10
    · simp [h1, h2]
    · by_cases h3 : (listMax (m.map (·.2)) : ℚ) < (tp : ℚ) * (1 / 5)
      · simp [h1, h2, h3]
      · simp [h1, h2, h3]

/-- Claim C6 witness: the map A↦1, B↦2, C↦3 from a 500-page document is
rejected wholesale. -/
theorem C6_witness :
    validate_toc_map [("A", 1), ("B", 2), ("C", 3)] 500 = [] :=
  (C6_toc_validation [("A", 1), ("B", 2), ("C", 3)] 500 (by decide)).trans
    (by decide)

/-! ### General helper lemmas -/

/-- String append is associative. -/
theorem strAppend_assoc (x y z : String) : x ++ y ++ z = x ++ (y ++ z) := by
  obtain ⟨l1⟩ := x; obtain ⟨l2⟩ := y; obtain ⟨l3⟩ := z
  show (⟨l1 ++ l2 ++ l3⟩ : String) = ⟨l1 ++ (l2 ++ l3)⟩
  rw [List.append_assoc]

/-- The first two characters of a two-character group followed by anything
are the group itself. -/
theorem pyTakeStr_g2s_append (p : Char × Char) (r : String) :
    pyTakeStr (g2s p ++ r) 2 = g2s p := rfl

/-- Every whitelisted division is its own two-character prefix in any
section string it heads. -/
theorem pyTakeStr_append_of_mem (d : String) (h : d ∈ VALID_DIVISIONS)
    (r : String) : pyTakeStr (d ++ r) 2 = d := by
  fin_cases h <;> (obtain ⟨rl⟩ := r; rfl)

/-- `footerSectionOf` begins with its first group. -/
theorem footerSectionOf_take2 (g : FooterG) :
    pyTakeStr (footerSectionOf g) 2 = g2s g.d1 := by
  obtain ⟨d1, d2, d3, sub⟩ := g
  cases sub <;> rfl

/-- `tocSectionOf` begins with its first group. -/
theorem tocSectionOf_take2 (g : TocG) :
    pyTakeStr (tocSectionOf g) 2 = g2s g.d1 := by
  obtain ⟨d1, d2, d3, sub, pd⟩ := g
  cases sub <;> rfl

/-! ### Claim C8: the footer tier and the (04, 15, 23) / (04, 16, 23) codes -/

/-- A successful `footerAttempt` comes from a match whose groups pass
`is_valid_division`. -/
theorem footerAttempt_inversion (tryAt : List Char → Option (FooterG × List Char))
    (region : List Char) (s d : String)
    (h : footerAttempt tryAt region = some (s, d)) :
    ∃ g : FooterG, is_valid_division (g2s g.d1) (g2s g.d2) (g2s g.d3) = true ∧
      s = footerSectionOf g ∧ d = g2s g.d1 := by
  unfold footerAttempt at h
  rw [Option.bind_eq_some] at h
  obtain ⟨gr, _, hres⟩ := h
  unfold footerGroupsToResult at hres
  split at hres
  · have h2 := Option.some.inj hres
    exact ⟨gr.1, by assumption, (congrArg Prod.fst h2).symm,
      (congrArg Prod.snd h2).symm⟩
  · exact absurd hres (by simp)

/-- Every successful result of `extract_section_from_footer` comes from a
match whose three groups pass `is_valid_division`. -/
theorem footer_extract_inversion (text s : String) (d? : Option String)
    (h : extract_section_from_footer text = (some s, d?)) :
    ∃ g : FooterG, is_valid_division (g2s g.d1) (g2s g.d2) (g2s g.d3) = true ∧
      s = footerSectionOf g ∧ d? = some (g2s g.d1) := by
  unfold extract_section_from_footer at h
  split at h
  · exact absurd (congrArg Prod.fst h) (by simp)
  · split at h
    next s1 d1 heq =>
      obtain ⟨g, hv, hs, hd⟩ := footerAttempt_inversion _ _ _ _ heq
      have h2 := (Prod.mk.injEq _ _ _ _).mp h
      exact ⟨g, hv, by rw [← Option.some.inj h2.1]; exact hs,
        by rw [← h2.2, hd]⟩
    next _ =>
      split at h
      next s1 d1 heq =>
        obtain ⟨g, hv, hs, hd⟩ := footerAttempt_inversion _ _ _ _ heq
        have h2 := (Prod.mk.injEq _ _ _ _).mp h
        exact ⟨g, hv, by rw [← Option.some.inj h2.1]; exact hs,
          by rw [← h2.2, hd]⟩
      next _ =>
        split at h
        next s1 d1 heq =>
          obtain ⟨g, hv, hs, hd⟩ := footerAttempt_inversion _ _ _ _ heq
          have h2 := (Prod.mk.injEq _ _ _ _).mp h
          exact ⟨g, hv, by rw [← Option.some.inj h2.1]; exact hs,
            by rw [← h2.2, hd]⟩
        next _ =>
          exact absurd (congrArg Prod.fst h) (by simp)

/-- If a match's section string is `"04 16 23"`, its groups are 04, 16, 23. -/
theorem footerSectionOf_binding (g : FooterG)
    (h : footerSectionOf g = "04 16 23") :
    g2s g.d1 = "04" ∧ g2s g.d2 = "16" ∧ g2s g.d3 = "23" := by
  obtain ⟨⟨a, b⟩, ⟨c, d⟩, ⟨e, f⟩, sub⟩ := g
  cases sub with
  | none =>
    have hd : ([a, b, ' ', c, d, ' ', e, f] : List Char) =
        ['0', '4', ' ', '1', '6', ' ', '2', '3'] := congrArg String.data h
    simp only [List.cons.injEq, and_true] at hd
    obtain ⟨h1, h2, -, h3, h4, -, h5, h6⟩ := hd
    subst h1; subst h2; subst h3; subst h4; subst h5; subst h6
    exact ⟨rfl, rfl, rfl⟩
  | some ds =>
    exfalso
    have hd : ([a, b, ' ', c, d, ' ', e, f, '.'] ++ ds : List Char) =
        ['0', '4', ' ', '1', '6', ' ', '2', '3'] := congrArg String.data h
    have := congrArg List.length hd
    simp at this

/-- Claim C8 (counterexample): a page whose footer contains `04 15 23 - 5`
is NOT rejected — mid 15 is in the common-mid allowlist, so
`is_valid_division` accepts (04, 15, 23) and the footer tier returns
division 04 with section `04 15 23`, contrary to the claim. -/
theorem C8_counterexample :
    extract_section_from_footer exFooterDateText = (some "04 15 23", some "04")
      ∧ is_valid_division "04" "15" "23" = true := by
  constructor
  · decide
  · decide

/-- Claim C8 (amended): the date heuristic does reject a 3-group footer code
whose mid is genuinely outside the allowlist: (04, 16, 23) fails
`is_valid_division`, and `extract_section_from_footer` can never return
section `04 16 23` for any page text. -/
theorem C8_date_rejection :
    is_valid_division "04" "16" "23" = false ∧
    ∀ text, (extract_section_from_footer text).1 ≠ some "04 16 23" := by
  refine ⟨by decide, fun text hcontra => ?_⟩
  have hpair : extract_section_from_footer text =
      (some "04 16 23", (extract_section_from_footer text).2) := by
    rw [← hcontra]
  obtain ⟨g, hval, hs, -⟩ := footer_extract_inversion text "04 16 23" _ hpair
  obtain ⟨h1, h2, h3⟩ := footerSectionOf_binding g hs.symm
  rw [h1, h2, h3] at hval
  exact absurd hval (by decide)

/-- Claim C8 witness: concretely, a page with footer `04 16 23 - 1` never
yields section `04 16 23`. -/
theorem C8_witness :
    is_valid_division "04" "16" "23" = false ∧
    (extract_section_from_footer exFooter16Text).1 ≠ some "04 16 23" :=
  ⟨C8_date_rejection.1, C8_date_rejection.2 exFooter16Text⟩

/-! ### Claim C9: cross-reference extraction -/

/-- Strings with equal character data are equal. -/
theorem strExt {a b : String} (h : a.data = b.data) : a = b := by
  cases a; cases b; exact congrArg String.mk h

/-- Lexicographic comparison is transitive. -/
theorem strLtAux_trans :
    ∀ a b c : List Char, strLtAux a b = true → strLtAux b c = true →
      strLtAux a c = true := by
  intro a
  induction a with
  | nil =>
    intro b c hab hbc
    cases b with
    | nil => simp [strLtAux] at hab
    | cons y ys =>
      cases c with
      | nil => simp [strLtAux] at hbc
      | cons z zs => simp [strLtAux]
  | cons x xs ih =>
    intro b c hab hbc
    cases b with
    | nil => simp [strLtAux] at hab
    | cons y ys =>
      cases c with
      | nil => simp [strLtAux] at hbc
      | cons z zs =>
        simp only [strLtAux] at hab hbc ⊢
        by_cases h1 : x < y
        · by_cases h2 : y < z
          · simp [lt_trans h1 h2]
          · rw [if_neg h2] at hbc
            by_cases h3 : z < y
            · simp [h3] at hbc
            · have hyz : y = z := le_antisymm (not_lt.mp h3) (not_lt.mp h2)
              simp [hyz ▸ h1]
        · rw [if_neg h1] at hab
          by_cases h1b : y < x
          · simp [h1b] at hab
          · rw [if_neg h1b] at hab
            have hxy : x = y := le_antisymm (not_lt.mp h1b) (not_lt.mp h1)
            subst hxy
            by_cases h2 : x < z
            · simp [h2]
            · rw [if_neg h2] at hbc
              by_cases h3 : z < x
              · simp [h3] at hbc
              · rw [if_neg h3] at hbc
                rw [if_neg h2, if_neg h3]
                exact ih ys zs hab hbc

/-- String `<` is transitive. -/
theorem strLt_trans (a b c : String) (h1 : strLt a b = true)
    (h2 : strLt b c = true) : strLt a c = true :=
  strLtAux_trans a.data b.data c.data h1 h2

/-- Lexicographic trichotomy. -/
theorem strLtAux_trichotomy :
    ∀ a b : List Char, strLtAux a b = true ∨ a = b ∨ strLtAux b a = true := by
  intro a
  induction a with
  | nil => intro b; cases b <;> simp [strLtAux]
  | cons x xs ih =>
    intro b
    cases b with
    | nil => simp [strLtAux]
    | cons y ys =>
      rcases lt_trichotomy x y with h | h | h
      · left; simp [strLtAux, h]
      · subst h
        rcases ih ys with h2 | h2 | h2
        · left; simp [strLtAux, h2]
        · right; left; rw [h2]
        · right; right; simp [strLtAux, h2]
      · right; right; simp [strLtAux, h]

/-- Membership through `insertSorted`. -/
theorem mem_insertSorted (x y : String) :
    ∀ l, y ∈ insertSorted x l ↔ y = x ∨ y ∈ l := by
  intro l
  induction l with
  | nil => simp [insertSorted]
  | cons z zs ih =>
    unfold insertSorted
    by_cases h1 : strLt x z = true
    · rw [if_pos h1]; simp [List.mem_cons]
    · rw [if_neg h1]
      by_cases h2 : x = z
      · rw [if_pos h2]; subst h2; simp [List.mem_cons]; try tauto
      · rw [if_neg h2]; simp [List.mem_cons, ih]; try tauto

/-- `insertSorted` preserves strict sortedness. -/
theorem pairwise_insertSorted (x : String) :
    ∀ l, List.Pairwise (fun a b => strLt a b = true) l →
      List.Pairwise (fun a b => strLt a b = true) (insertSorted x l) := by
  intro l
  induction l with
  | nil => intro; simp [insertSorted]
  | cons z zs ih =>
    intro hp
    rw [List.pairwise_cons] at hp
    obtain ⟨hz, hzs⟩ := hp
    unfold insertSorted
    by_cases h1 : strLt x z = true
    · rw [if_pos h1]
      refine List.Pairwise.cons ?_ (List.Pairwise.cons hz hzs)
      intro b hb
      rcases List.mem_cons.mp hb with rfl | hb2
      · exact h1
      · exact strLt_trans x z b h1 (hz b hb2)
    · rw [if_neg h1]
      by_cases h2 : x = z
      · rw [if_pos h2]; exact List.Pairwise.cons hz hzs
      · rw [if_neg h2]
        refine List.Pairwise.cons ?_ (ih hzs)
        intro b hb
        rcases (mem_insertSorted x b zs).mp hb with rfl | hb2
        · rcases strLtAux_trichotomy b.data z.data with h | h | h
          · exact absurd h h1
          · exact absurd (strExt h) h2
          · exact h
        · exact hz b hb2

/-- `sortedDedup` yields a strictly sorted (hence duplicate-free) list. -/
theorem pairwise_sortedDedup (l : List String) :
    List.Pairwise (fun a b => strLt a b = true) (sortedDedup l) := by
  have key : ∀ (l acc : List String),
      List.Pairwise (fun a b => strLt a b = true) acc →
      List.Pairwise (fun a b => strLt a b = true)
        (l.foldl (fun acc x => insertSorted x acc) acc) := by
    intro l
    induction l with
    | nil => intro acc h; simpa using h
    | cons x xs ih => intro acc h; exact ih _ (pairwise_insertSorted x acc h)
  exact key l [] (by simp)

/-- `sortedDedup` preserves membership. -/
theorem mem_sortedDedup (l : List String) (y : String) :
    y ∈ sortedDedup l ↔ y ∈ l := by
  have key : ∀ (l acc : List String),
      y ∈ l.foldl (fun acc x => insertSorted x acc) acc ↔ y ∈ acc ∨ y ∈ l := by
    intro l
    induction l with
    | nil => intro acc; simp
    | cons x xs ih =>
      intro acc
      rw [List.foldl_cons, ih, mem_insertSorted]
      simp [List.mem_cons]; try tauto
  unfold sortedDedup
  rw [key l []]; simp

/-- The collection loop of `extract_cross_references` keeps exactly the
valid, non-self references. -/
theorem mem_crossRefs_collected (text : String) (own : Option String)
    (r : String) :
    r ∈ (crossRefMatches text).foldl
        (fun acc m =>
          if crossRefSelf own (crossRefOf m) then acc
          else if is_valid_division (g2s m.1) (g2s m.2.1) (g2s m.2.2) then
            acc ++ [crossRefOf m]
          else acc) [] ↔
      ∃ m, m ∈ crossRefMatches text ∧
        crossRefSelf own (crossRefOf m) = false ∧
        is_valid_division (g2s m.1) (g2s m.2.1) (g2s m.2.2) = true ∧
        r = crossRefOf m := by
  have key : ∀ (ms : List ((Char × Char) × (Char × Char) × (Char × Char)))
      (acc : List String),
      r ∈ ms.foldl
        (fun acc m =>
          if crossRefSelf own (crossRefOf m) then acc
          else if is_valid_division (g2s m.1) (g2s m.2.1) (g2s m.2.2) then
            acc ++ [crossRefOf m]
          else acc) acc ↔
      r ∈ acc ∨ ∃ m, m ∈ ms ∧ crossRefSelf own (crossRefOf m) = false ∧
        is_valid_division (g2s m.1) (g2s m.2.1) (g2s m.2.2) = true ∧
        r = crossRefOf m := by
    intro ms
    induction ms with
    | nil => intro acc; simp
    | cons m ms ih =>
      intro acc
      rw [List.foldl_cons]
      by_cases hs : crossRefSelf own (crossRefOf m) = true
      · rw [if_pos hs, ih]
        constructor
        · rintro (h | ⟨m1, hm1, hrest⟩)
          · exact Or.inl h
          · exact Or.inr ⟨m1, List.mem_cons_of_mem m hm1, hrest⟩
        · rintro (h | ⟨m1, hm1, hself, hrest⟩)
          · exact Or.inl h
          · rcases List.mem_cons.mp hm1 with rfl | hm2
            · rw [hs] at hself; cases hself
            · exact Or.inr ⟨m1, hm2, hself, hrest⟩
      · rw [if_neg hs]
        have hs' : crossRefSelf own (crossRefOf m) = false :=
          Bool.not_eq_true _ ▸ Bool.of_not_eq_true hs
        by_cases hv : is_valid_division (g2s m.1) (g2s m.2.1) (g2s m.2.2) = true
        · rw [if_pos hv, ih]
          constructor
          · rintro (h | ⟨m1, hm1, hrest⟩)
            · rcases List.mem_append.mp h with h2 | h2
              · exact Or.inl h2
              · exact Or.inr ⟨m, List.mem_cons_self m ms, hs',
                  hv, List.mem_singleton.mp h2⟩
            · exact Or.inr ⟨m1, List.mem_cons_of_mem m hm1, hrest⟩
          · rintro (h | ⟨m1, hm1, hself, hval, hre⟩)
            · exact Or.inl (List.mem_append.mpr (Or.inl h))
            · rcases List.mem_cons.mp hm1 with rfl | hm2
              · exact Or.inl (List.mem_append.mpr (Or.inr (by simp [hre])))
              · exact Or.inr ⟨m1, hm2, hself, hval, hre⟩
        · rw [if_neg hv, ih]
          constructor
          · rintro (h | ⟨m1, hm1, hrest⟩)
            · exact Or.inl h
            · exact Or.inr ⟨m1, List.mem_cons_of_mem m hm1, hrest⟩
          · rintro (h | ⟨m1, hm1, hself, hval, hre⟩)
            · exact Or.inl h
            · rcases List.mem_cons.mp hm1 with rfl | hm2
              · exact absurd hval hv
              · exact Or.inr ⟨m1, hm2, hself, hval, hre⟩
  rw [key (crossRefMatches text) []]; simp

/-- The character data of one reference string. -/
theorem crossRefOf_data (m : (Char × Char) × (Char × Char) × (Char × Char)) :
    (crossRefOf m).data =
      [m.1.1, m.1.2, ' ', m.2.1.1, m.2.1.2, ' ', m.2.2.1, m.2.2.2] := by
  obtain ⟨⟨a, b⟩, ⟨c, d⟩, ⟨e, f⟩⟩ := m; rfl

/-- Claim C9: `extract_cross_references` is sorted and duplicate-free
(strictly increasing), contains only whitelisted, date-validated codes found
in the text, never contains the page's own section number, and behaves as
claimed on the two instance pages. -/
theorem C9_cross_references :
    (∀ text own, List.Pairwise (fun a b => strLt a b = true)
        (extract_cross_references text own)) ∧
    (∀ text own r, r ∈ extract_cross_references text own →
      (∃ m, m ∈ crossRefMatches text ∧ r = crossRefOf m ∧
        is_valid_division (g2s m.1) (g2s m.2.1) (g2s m.2.2) = true) ∧
      ∀ own0, own = some own0 → r ≠ own0) ∧
    extract_cross_references exSelfRefText (some "07 92 00") = [] ∧
    extract_cross_references exOtherRefText (some "07 92 00") = ["04 22 00"] := by
  refine ⟨?_, ?_, by decide, by decide⟩
  · intro text own
    unfold extract_cross_references
    exact pairwise_sortedDedup _
  · intro text own r hr
    unfold extract_cross_references at hr
    rw [mem_sortedDedup, mem_crossRefs_collected] at hr
    obtain ⟨m, hm, hself, hvalid, hre⟩ := hr
    refine ⟨⟨m, hm, hre, hvalid⟩, ?_⟩
    rintro own0 rfl hro
    have h8 : own0 = crossRefOf m := hro.symm.trans hre
    have hlen : own0.data.length = 8 := by rw [h8, crossRefOf_data]; rfl
    have hne : own0 ≠ "" := by
      intro hc; rw [hc] at hlen; simp at hlen
    have htake : pyTakeStr own0 11 = own0 := by
      apply strExt
      show own0.data.take 11 = own0.data
      exact List.take_of_length_le (by omega)
    rw [← h8] at hself
    have hcs : crossRefSelf (some own0) own0 =
        (own0 != "" && own0 == pyTakeStr own0 11) := rfl
    rw [hcs, htake] at hself
    simp [bne_iff_ne, hne] at hself

/-- Claim C9 witness: the instance page mentioning `04 22 00` contains it,
and the extractor's self-exclusion holds there. -/
theorem C9_witness :
    "04 22 00" ∈ extract_cross_references exOtherRefText (some "07 92 00") ∧
    "04 22 00" ≠ "07 92 00" := by
  have h := C9_cross_references
  have hmem : "04 22 00" ∈ extract_cross_references exOtherRefText
      (some "07 92 00") := by
    rw [h.2.2.2]; exact List.mem_singleton.mpr rfl
  exact ⟨hmem, (h.2.1 exOtherRefText (some "07 92 00") "04 22 00" hmem).2
    "07 92 00" rfl⟩

/-! ### Claim C3: oracle degradation -/

/-- Every code surviving `_parse_ai_response` validation is whitelisted. -/
theorem validate_ai_codes_mem (results : List String) (expected : Nat) :
    ∀ d ∈ validate_ai_codes results expected, d ∈ VALID_DIVISIONS := by
  intro d hd
  unfold validate_ai_codes at hd
  rw [List.mem_map] at hd
  obtain ⟨code, -, hc⟩ := hd
  by_cases h : zfill2take2 code ∈ VALID_DIVISIONS
  · rw [if_pos h] at hc; exact hc ▸ h
  · rw [if_neg h] at hc; rw [← hc]; decide

/-- Every code produced by the batch loop is whitelisted. -/
theorem ai_classify_batches_mem (oracle : Nat → BatchResult) :
    ∀ (bs : List (List PageRec)) (i : Nat) (d : String),
      d ∈ ai_classify_batches oracle i bs → d ∈ VALID_DIVISIONS := by
  intro bs
  induction bs with
  | nil => intro i d hd; simp [ai_classify_batches] at hd
  | cons b bs ih =>
    intro i d hd
    rw [show ai_classify_batches oracle i (b :: bs) =
        (match oracle i with
         | BatchResult.failure => List.replicate b.length "01"
         | BatchResult.ok results => validate_ai_codes results b.length)
          ++ ai_classify_batches oracle (i + 1) bs from rfl] at hd
    rcases List.mem_append.mp hd with h | h
    · rcases horacle : oracle i with _ | results
      · rw [horacle] at h
        rw [List.eq_of_mem_replicate h]; decide
      · rw [horacle] at h
        exact validate_ai_codes_mem results b.length d h
    · exact ih (i + 1) d h

/-- Every code produced by the AI tier is whitelisted. -/
theorem ai_classify_pages_mem (hasKey : Bool) (oracle : Nat → BatchResult)
    (pages : List PageRec) :
    ∀ d ∈ ai_classify_pages hasKey oracle pages, d ∈ VALID_DIVISIONS := by
  intro d hd
  unfold ai_classify_pages at hd
  split_ifs at hd
  · rw [List.eq_of_mem_replicate hd]; decide
  · simp at hd
  · exact ai_classify_batches_mem oracle _ 0 d hd

/-- Claim C3 (counterexample): with the API key absent (and a failing
oracle), the AI stage classifies the batch's page as division "01", method
"ai" — the failed batch does contribute a classification, contrary to the
claim that it contributes none. -/
theorem C3_counterexample :
    (aiStage false (fun _ => BatchResult.failure) [exUnclassifiedPage]).map
        (·.division_code) = [some "01"] ∧
    (aiStage false (fun _ => BatchResult.failure) [exUnclassifiedPage]).map
        (·.classification_method) = [some "ai"] := by
  constructor
  · decide
  · decide

/-- Claim C3 (amended): the AI tier is total (a Lean function — it cannot
raise), and a missing key or a failed batch degrades to the *default
division code "01"* for every page of the batch (which the caller then
applies as a real classification); every code the tier emits is
whitelisted. -/
theorem C3_oracle_degradation :
    (∀ (oracle : Nat → BatchResult) (pages : List PageRec),
      ai_classify_pages false oracle pages =
        List.replicate pages.length "01") ∧
    (∀ (oracle : Nat → BatchResult) (i : Nat) (b : List PageRec)
        (bs : List (List PageRec)), oracle i = BatchResult.failure →
      ai_classify_batches oracle i (b :: bs) =
        List.replicate b.length "01" ++
          ai_classify_batches oracle (i + 1) bs) ∧
    (∀ (hasKey : Bool) (oracle : Nat → BatchResult) (pages : List PageRec)
        (d : String), d ∈ ai_classify_pages hasKey oracle pages →
      d ∈ VALID_DIVISIONS) := by
  refine ⟨fun oracle pages => by simp [ai_classify_pages],
    fun oracle i b bs h => ?_,
    fun hasKey oracle pages d hd => ai_classify_pages_mem hasKey oracle pages d hd⟩
  show (match oracle i with
        | BatchResult.failure => List.replicate b.length "01"
        | BatchResult.ok results => validate_ai_codes results b.length)
      ++ ai_classify_batches oracle (i + 1) bs = _
  rw [h]

/-- Claim C3 witness: one unclassified page, no API key. -/
theorem C3_witness :
    ai_classify_pages false (fun _ => BatchResult.failure)
      [exUnclassifiedPage] = ["01"] := by
  have h := C3_oracle_degradation.1 (fun _ => BatchResult.failure)
    [exUnclassifiedPage]
  simpa using h

/-! ### Claim C7: format detection -/

theorem famHit_compact (h : Nat × Nat × Nat × Nat) :
    famHit "compact_page" h = h.1 := rfl

theorem famHit_spaced (h : Nat × Nat × Nat × Nat) :
    famHit "spaced_page" h = h.2.1 := rfl

theorem famHit_seccompact (h : Nat × Nat × Nat × Nat) :
    famHit "section_compact" h = h.2.2.1 := rfl

theorem famHit_secspaced (h : Nat × Nat × Nat × Nat) :
    famHit "section_spaced" h = h.2.2.2 := rfl

theorem famPriority_compact : famPriority "compact_page" = 0 := rfl

theorem famPriority_spaced : famPriority "spaced_page" = 1 := rfl

theorem famPriority_seccompact : famPriority "section_compact" = 2 := rfl

theorem famPriority_secspaced : famPriority "section_spaced" = 3 := rfl

/-- Claim C7 (counterexample): a sample with three compact matches on one
page and one spaced match on each of two pages is detected as
`"spaced_page"` although `"compact_page"` has strictly more total regex
matches — the code counts pages with a hit, not total hits. -/
theorem C7_counterexample :
    detect_spec_format [exFmtA, exFmtB, exFmtB] = "spaced_page" ∧
    specTotalHits "spaced_page" [exFmtA, exFmtB, exFmtB] <
      specTotalHits "compact_page" [exFmtA, exFmtB, exFmtB] := by
  constructor
  · decide
  · decide

/-- Claim C7 (amended): with a family's score being the number of sampled
pages on which its pattern fires (not the total match count),
`detect_spec_format` returns `"none"` exactly on an all-zero score, and
otherwise returns a family with maximal score, ties resolved by the fixed
priority compact_page > spaced_page > section_compact > section_spaced. -/
theorem C7_format_detection (sample : List String) :
    (detect_spec_format sample = "none" ↔
      formatPageHits sample = (0, 0, 0, 0)) ∧
    (formatPageHits sample ≠ (0, 0, 0, 0) →
      detect_spec_format sample ∈ familyNames ∧
      (∀ fmt ∈ familyNames,
        famHit fmt (formatPageHits sample) ≤
          famHit (detect_spec_format sample) (formatPageHits sample)) ∧
      (∀ fmt ∈ familyNames,
        famHit fmt (formatPageHits sample) =
            famHit (detect_spec_format sample) (formatPageHits sample) →
          famPriority (detect_spec_format sample) ≤ famPriority fmt)) := by
  rcases hfp : formatPageHits sample with ⟨c, s, sc, ss⟩
  have hd : detect_spec_format sample =
      (if c = 0 ∧ s = 0 ∧ sc = 0 ∧ ss = 0 then "none"
       else if s ≤ c ∧ sc ≤ c ∧ ss ≤ c then "compact_page"
       else if sc ≤ s ∧ ss ≤ s then "spaced_page"
       else if ss ≤ sc then "section_compact"
       else "section_spaced") := by
    unfold detect_spec_format
    rw [hfp]
  rw [hd]
  split_ifs with h1 h2 h3 h4
  · obtain ⟨rfl, rfl, rfl, rfl⟩ := h1
    exact ⟨by simp, fun hne => absurd rfl hne⟩
  · refine ⟨iff_of_false (by decide)
      (fun he => h1 (by simpa [Prod.ext_iff] using he)), fun _ => ?_⟩
    refine ⟨by decide, ?_, ?_⟩
    · intro fmt hf
      fin_cases hf <;>
        simp only [famHit_compact, famHit_spaced, famHit_seccompact,
          famHit_secspaced] <;> omega
    · intro fmt hf
      fin_cases hf <;>
        simp only [famHit_compact, famHit_spaced, famHit_seccompact,
          famHit_secspaced, famPriority_compact, famPriority_spaced,
          famPriority_seccompact, famPriority_secspaced] <;> (intro hh; omega)
  · refine ⟨iff_of_false (by decide)
      (fun he => h1 (by simpa [Prod.ext_iff] using he)), fun _ => ?_⟩
    refine ⟨by decide, ?_, ?_⟩
    · intro fmt hf
      fin_cases hf <;>
        simp only [famHit_compact, famHit_spaced, famHit_seccompact,
          famHit_secspaced] <;> omega
    · intro fmt hf
      fin_cases hf <;>
        simp only [famHit_compact, famHit_spaced, famHit_seccompact,
          famHit_secspaced, famPriority_compact, famPriority_spaced,
          famPriority_seccompact, famPriority_secspaced] <;>
        (intro hh; first | rfl | omega)
  · refine ⟨iff_of_false (by decide)
      (fun he => h1 (by simpa [Prod.ext_iff] using he)), fun _ => ?_⟩
    refine ⟨by decide, ?_, ?_⟩
    · intro fmt hf
      fin_cases hf <;>
        simp only [famHit_compact, famHit_spaced, famHit_seccompact,
          famHit_secspaced] <;> omega
    · intro fmt hf
      fin_cases hf <;>
        simp only [famHit_compact, famHit_spaced, famHit_seccompact,
          famHit_secspaced, famPriority_compact, famPriority_spaced,
          famPriority_seccompact, famPriority_secspaced] <;>
        (intro hh; first | rfl | omega)
  · refine ⟨iff_of_false (by decide)
      (fun he => h1 (by simpa [Prod.ext_iff] using he)), fun _ => ?_⟩
    refine ⟨by decide, ?_, ?_⟩
    · intro fmt hf
      fin_cases hf <;>
        simp only [famHit_compact, famHit_spaced, famHit_seccompact,
          famHit_secspaced] <;> omega
    · intro fmt hf
      fin_cases hf <;>
        simp only [famHit_compact, famHit_spaced, famHit_seccompact,
          famHit_secspaced, famPriority_compact, famPriority_spaced,
          famPriority_seccompact, famPriority_secspaced] <;>
        (intro hh; first | rfl | omega)

/-- Claim C7 witness: the amended characterization on the counterexample
sample — the detected family has maximal page-hit score there. -/
theorem C7_witness :
    detect_spec_format [exFmtA, exFmtB, exFmtB] ∈ familyNames :=
  ((C7_format_detection [exFmtA, exFmtB, exFmtB]).2 (by decide)).1

/-! ### Claim C1: AI boundary application as a range map -/

/-- Boundaries only carry page numbers of unclassified pages. -/
theorem aiBoundaries_mem (ps : List PageRec) :
    ∀ (divs : List String) (b : String × Nat), b ∈ aiBoundaries ps divs →
      ∃ q, q ∈ ps ∧ q.division_code = none ∧ b.2 = q.page_number := by
  have key : ∀ (l : List PageRec) (divs : List String) (b : String × Nat),
      b ∈ List.zipWith
        (fun (p : PageRec) (d : String) => (d ++ " 00 00", p.page_number))
        l divs →
      ∃ q, q ∈ l ∧ b.2 = q.page_number := by
    intro l
    induction l with
    | nil => intro divs b hb; simp at hb
    | cons p l ih =>
      intro divs b hb
      cases divs with
      | nil => simp at hb
      | cons d ds =>
        rcases List.mem_cons.mp hb with rfl | hb2
        · exact ⟨p, List.mem_cons_self _ _, rfl⟩
        · obtain ⟨q, hq, hbq⟩ := ih ds b hb2
          exact ⟨q, List.mem_cons_of_mem _ hq, hbq⟩
  intro divs b hb
  obtain ⟨q, hq, hbq⟩ := key _ divs b hb
  rw [List.mem_filter] at hq
  exact ⟨q, hq.1, by simpa using hq.2, hbq⟩

/-- The boundary list of an unclassified head page. -/
theorem aiBoundaries_cons_unclassified (p : PageRec) (ps : List PageRec)
    (d : String) (ds : List String) (h : p.division_code = none) :
    aiBoundaries (p :: ps) (d :: ds) =
      (d ++ " 00 00", p.page_number) :: aiBoundaries ps ds := by
  unfold aiBoundaries
  rw [List.filter_cons_of_pos (by simpa using h)]
  rfl

/-- The boundary list of a classified head page. -/
theorem aiBoundaries_cons_classified (p : PageRec) (ps : List PageRec)
    (divs : List String) (h : p.division_code ≠ none) :
    aiBoundaries (p :: ps) divs = aiBoundaries ps divs := by
  unfold aiBoundaries
  rw [List.filter_cons_of_neg (by simpa using h)]

/-- The boundaries inherit strict page ordering. -/
theorem aiBoundaries_pairwise (ps : List PageRec) :
    ∀ divs : List String,
      List.Pairwise (fun a b : PageRec => a.page_number < b.page_number) ps →
      List.Pairwise (fun a b : String × Nat => a.2 < b.2)
        (aiBoundaries ps divs) := by
  induction ps with
  | nil => intro divs _; simp [aiBoundaries]
  | cons p ps ih =>
    intro divs hp
    rw [List.pairwise_cons] at hp
    by_cases hdiv : p.division_code = none
    · cases divs with
      | nil => simp [aiBoundaries]
      | cons d ds =>
        rw [aiBoundaries_cons_unclassified p ps d ds hdiv]
        refine List.Pairwise.cons ?_ (ih ds hp.2)
        intro b hb
        obtain ⟨q, hq, -, hbq⟩ := aiBoundaries_mem ps ds b hb
        show p.page_number < b.2
        rw [hbq]
        exact hp.1 q hq
    · rw [aiBoundaries_cons_classified p ps divs hdiv]
      exact ih divs hp.2

/-- With the division list exhausted, the application loop is the
identity. -/
theorem applyAi_nil : ∀ ps : List PageRec, applyAiClassifications ps [] = ps := by
  intro ps
  induction ps with
  | nil => rfl
  | cons p ps ih =>
    unfold applyAiClassifications
    split_ifs <;> rw [ih]

/-- One step of the range loop over a single-entry list at its own page. -/
theorem findRange_here_nil (s : String) (p : Nat) :
    findRange [(s, p)] p = some s := by
  show (if p ≤ p then some s else findRange [] p) = some s
  rw [if_pos (le_refl p)]

/-- One step of the range loop at the page's own boundary, next entry
strictly above. -/
theorem findRange_here_cons (s : String) (p : Nat) (c1 : String) (c2 : Nat)
    (l : List (String × Nat)) (hnext : p < c2) :
    findRange ((s, p) :: (c1, c2) :: l) p = some s := by
  show (if p ≤ p then
          if p < c2 then some s else findRange ((c1, c2) :: l) p
        else findRange ((c1, c2) :: l) p) = some s
  rw [if_pos (le_refl p), if_pos hnext]

/-- One step of the range loop past an entry whose range ends at or before
the page. -/
theorem findRange_cons_skip (b1 : String) (b2 : Nat) (c1 : String) (c2 : Nat)
    (l : List (String × Nat)) (p : Nat) (hb : b2 ≤ p) (hnext : ¬ p < c2) :
    findRange ((b1, b2) :: (c1, c2) :: l) p = findRange ((c1, c2) :: l) p := by
  show (if b2 ≤ p then
          if p < c2 then some b1 else findRange ((c1, c2) :: l) p
        else findRange ((c1, c2) :: l) p) = findRange ((c1, c2) :: l) p
  rw [if_pos hb, if_neg hnext]

/-- The range loop skips boundaries strictly below the page and stops at the
page's own boundary. -/
theorem findRange_skip (s : String) (p : Nat) :
    ∀ (bs1 rest : List (String × Nat)),
      (∀ b ∈ bs1, b.2 < p) → (∀ b ∈ rest, p < b.2) →
      findRange (bs1 ++ (s, p) :: rest) p = some s := by
  intro bs1
  induction bs1 with
  | nil =>
    intro rest _ h2
    cases rest with
    | nil => exact findRange_here_nil s p
    | cons c rest2 =>
      obtain ⟨c1, c2⟩ := c
      exact findRange_here_cons s p c1 c2 rest2
        (h2 (c1, c2) (List.mem_cons_self _ _))
  | cons b bs1' ih =>
    intro rest h1 h2
    obtain ⟨b1, b2⟩ := b
    have hb2 : b2 < p := h1 (b1, b2) (List.mem_cons_self _ _)
    have hrec : findRange (bs1' ++ (s, p) :: rest) p = some s :=
      ih rest (fun b hb => h1 b (List.mem_cons_of_mem _ hb)) h2
    cases hbs : bs1' with
    | nil =>
      rw [hbs] at hrec
      rw [show ((b1, b2) :: []) ++ (s, p) :: rest =
        (b1, b2) :: (s, p) :: rest from rfl]
      rw [findRange_cons_skip b1 b2 s p rest p (Nat.le_of_lt hb2) (lt_irrefl p)]
      simpa using hrec
    | cons c cs =>
      obtain ⟨c1, c2⟩ := c
      have hc2 : c2 < p := by
        refine h1 (c1, c2) ?_
        rw [hbs]
        exact List.mem_cons_of_mem _ (List.mem_cons_self _ _)
      rw [hbs] at hrec
      rw [show ((b1, b2) :: (c1, c2) :: cs) ++ (s, p) :: rest =
        (b1, b2) :: (c1, c2) :: (cs ++ (s, p) :: rest) from rfl]
      rw [findRange_cons_skip b1 b2 c1 c2 (cs ++ (s, p) :: rest) p
        (Nat.le_of_lt hb2) (Nat.not_lt.mpr (Nat.le_of_lt hc2))]
      exact hrec

/-- Core equivalence: the `zip` application of the AI results equals the
range-map application of the implicit boundaries. -/
theorem applyAi_eq_range (ps : List PageRec) :
    ∀ (divs : List String) (bs1 : List (String × Nat)),
      List.Pairwise (fun a b : PageRec => a.page_number < b.page_number) ps →
      (∀ p ∈ ps, p.section_number.isSome → p.division_code.isSome) →
      (∀ d ∈ divs, d ∈ VALID_DIVISIONS) →
      divs.length = (ps.filter fun p => p.division_code = none).length →
      (∀ b ∈ bs1, ∀ p ∈ ps, b.2 < p.page_number) →
      applyAiClassifications ps divs =
        ps.map (pageAssign (bs1 ++ aiBoundaries ps divs) "ai") := by
  induction ps with
  | nil => intro divs bs1 _ _ _ _ _; rfl
  | cons p ps ih =>
    intro divs bs1 hpw hsd hvd hlen hb
    rw [List.pairwise_cons] at hpw
    obtain ⟨hplt, hpw'⟩ := hpw
    by_cases hdiv : p.division_code = none
    · have hsec : p.section_number = none := by
        cases hs : p.section_number with
        | none => rfl
        | some s =>
          have h2 := hsd p (List.mem_cons_self _ _) (by rw [hs]; rfl)
          rw [hdiv] at h2
          simp at h2
      cases divs with
      | nil =>
        exfalso
        rw [List.filter_cons_of_pos (by simpa using hdiv)] at hlen
        simp at hlen
      | cons d ds =>
        have hbnd := aiBoundaries_cons_unclassified p ps d ds hdiv
        have hL : applyAiClassifications (p :: ps) (d :: ds) =
            { p with division_code := some d,
                     section_number := some (d ++ " 00 00"),
                     classification_method := some "ai" }
              :: applyAiClassifications ps ds := by
          simp [applyAiClassifications, hdiv]
        have hguard : ¬(p.section_number ≠ none ∨ p.division_code ≠ none) := by
          simp [hdiv, hsec]
        have hfr : findRange (bs1 ++ aiBoundaries (p :: ps) (d :: ds))
            p.page_number = some (d ++ " 00 00") := by
          rw [hbnd]
          apply findRange_skip
          · intro b hbmem
            exact hb b hbmem p (List.mem_cons_self _ _)
          · intro b hbmem
            obtain ⟨q, hq, -, hbq⟩ := aiBoundaries_mem ps ds b hbmem
            rw [hbq]
            exact hplt q hq
        have hhead : pageAssign (bs1 ++ aiBoundaries (p :: ps) (d :: ds)) "ai" p
            = { p with division_code := some d,
                       section_number := some (d ++ " 00 00"),
                       classification_method := some "ai" } := by
          unfold pageAssign
          rw [if_neg hguard, hfr]
          have ht := pyTakeStr_append_of_mem d (hvd d (List.mem_cons_self _ _))
            " 00 00"
          simp [ht]
        rw [hL, List.map_cons, hhead]
        congr 1
        have hassoc : bs1 ++ aiBoundaries (p :: ps) (d :: ds) =
            (bs1 ++ [(d ++ " 00 00", p.page_number)]) ++ aiBoundaries ps ds := by
          rw [hbnd, List.append_assoc]
          rfl
        rw [hassoc]
        apply ih ds (bs1 ++ [(d ++ " 00 00", p.page_number)]) hpw'
          (fun q hq => hsd q (List.mem_cons_of_mem _ hq))
          (fun d2 hd2 => hvd d2 (List.mem_cons_of_mem _ hd2))
        · rw [List.filter_cons_of_pos (by simpa using hdiv)] at hlen
          simpa using hlen
        · intro b hbmem q hq
          rcases List.mem_append.mp hbmem with h | h
          · exact hb b h q (List.mem_cons_of_mem _ hq)
          · rw [List.mem_singleton.mp h]
            exact hplt q hq
    · have hL : applyAiClassifications (p :: ps) divs =
          p :: applyAiClassifications ps divs := by
        simp [applyAiClassifications, hdiv]
      have hbnd := aiBoundaries_cons_classified p ps divs hdiv
      have hhead : pageAssign (bs1 ++ aiBoundaries (p :: ps) divs) "ai" p = p := by
        unfold pageAssign
        rw [if_pos (Or.inr hdiv)]
      rw [hL, List.map_cons, hhead, hbnd]
      congr 1
      apply ih divs bs1 hpw'
        (fun q hq => hsd q (List.mem_cons_of_mem _ hq)) hvd
      · rw [List.filter_cons_of_neg (by simpa using hdiv)] at hlen
        exact hlen
      · intro b hbmem q hq
        exact hb b hbmem q (List.mem_cons_of_mem _ hq)

/-- Stable insertion at the end when every key is at most the new one. -/
theorem insertByStart_append (x : String × Nat) :
    ∀ acc, (∀ a ∈ acc, a.2 ≤ x.2) → insertByStart x acc = acc ++ [x] := by
  intro acc
  induction acc with
  | nil => intro _; rfl
  | cons y ys ih =>
    intro h
    unfold insertByStart
    rw [if_pos (h y (List.mem_cons_self _ _))]
    rw [ih (fun a ha => h a (List.mem_cons_of_mem _ ha))]
    rfl

/-- Sorting an already (weakly) sorted map is the identity. -/
theorem sortByStart_of_sorted (l : List (String × Nat))
    (h : List.Pairwise (fun a b : String × Nat => a.2 ≤ b.2) l) :
    sortByStart l = l := by
  have key : ∀ (l acc : List (String × Nat)),
      List.Pairwise (fun a b : String × Nat => a.2 ≤ b.2) (acc ++ l) →
      l.foldl (fun acc x => insertByStart x acc) acc = acc ++ l := by
    intro l
    induction l with
    | nil => intro acc _; simp
    | cons x xs ih =>
      intro acc hp
      rw [List.foldl_cons]
      have hle : ∀ a ∈ acc, a.2 ≤ x.2 := by
        intro a ha
        exact (List.pairwise_append.mp hp).2.2 a ha x (List.mem_cons_self _ _)
      rw [insertByStart_append x acc hle]
      rw [ih (acc ++ [x]) (by rwa [List.append_assoc, List.singleton_append])]
      rw [List.append_assoc, List.singleton_append]
  exact key l [] (by simpa using h)

/-- Claim C1: the AI tier's per-page application equals sorting the implied
`(page, section)` boundaries by page and applying them with the same
start-page range algorithm used for the outline/TOC maps
(`apply_section_map`, which writes only to still-unclassified pages); the
boundary list is sorted by page. -/
theorem C1_ai_boundaries_range_equiv (pages : List PageRec)
    (divs : List String)
    (hchain : List.Chain'
      (fun a b : PageRec => a.page_number < b.page_number) pages)
    (hsd : ∀ p ∈ pages, p.section_number.isSome → p.division_code.isSome)
    (hvd : ∀ d ∈ divs, d ∈ VALID_DIVISIONS)
    (hlen : divs.length =
      (pages.filter fun p => p.division_code = none).length) :
    applyAiClassifications pages divs =
      apply_section_map pages (aiBoundaries pages divs) "ai" ∧
    List.Chain' (fun a b : String × Nat => a.2 < b.2)
      (aiBoundaries pages divs) := by
  haveI : IsTrans PageRec (fun a b : PageRec => a.page_number < b.page_number) :=
    ⟨fun _ _ _ => Nat.lt_trans⟩
  haveI : IsTrans (String × Nat) (fun a b : String × Nat => a.2 < b.2) :=
    ⟨fun _ _ _ => Nat.lt_trans⟩
  have hpw := List.chain'_iff_pairwise.mp hchain
  have hbpw := aiBoundaries_pairwise pages divs hpw
  refine ⟨?_, List.chain'_iff_pairwise.mpr hbpw⟩
  unfold apply_section_map
  by_cases hE : (aiBoundaries pages divs).isEmpty
  · rw [if_pos hE]
    have hlen0 : (aiBoundaries pages divs).length = 0 := by
      rw [List.isEmpty_iff] at hE
      rw [hE]
      rfl
    have : divs.length = 0 := by
      unfold aiBoundaries at hlen0
      rw [List.length_zipWith, ← hlen, Nat.min_self] at hlen0
      exact hlen0
    rw [List.length_eq_zero.mp this]
    exact applyAi_nil pages
  · rw [if_neg hE]
    rw [sortByStart_of_sorted _ (hbpw.imp (fun h => Nat.le_of_lt h))]
    have := applyAi_eq_range pages divs [] hpw hsd hvd hlen (by simp)
    simpa using this

/-- Claim C1 witness: two unclassified pages (1 and 3) around a classified
page 2, with AI results 04 and 26. -/
theorem C1_witness :
    applyAiClassifications exAiPages exAiDivs =
      apply_section_map exAiPages (aiBoundaries exAiPages exAiDivs) "ai" :=
  (C1_ai_boundaries_range_equiv exAiPages exAiDivs
    (by simp [exAiPages, exUnclassifiedPage, exClassifiedPage,
      List.chain'_cons])
    (by decide) (by decide) (by decide)).1

/-! ### Claim C10: blank-page omission -/

/-- `assignPageOutline` keeps the page number. -/
theorem assignPageOutline_pn (ss : List (String × Nat)) (od : List String)
    (f : String) (page : PageRec) :
    (assignPageOutline ss od f page).page_number = page.page_number := by
  unfold assignPageOutline
  dsimp only
  repeat' split
  all_goals rfl

/-- `pageAssign` keeps the page number. -/
theorem pageAssign_pn (ss : List (String × Nat)) (src : String)
    (page : PageRec) :
    (pageAssign ss src page).page_number = page.page_number := by
  unfold pageAssign
  split
  · rfl
  · split <;> rfl

/-- `preTagTocPages` keeps the page numbers. -/
theorem preTagTocPages_pn (pages : List PageRec) :
    (preTagTocPages pages).map (·.page_number) =
      pages.map (·.page_number) := by
  unfold preTagTocPages
  rw [List.map_map]
  apply List.map_congr_left
  intro p _
  show (if p.section_number ≠ none then p
        else if is_toc_page p.content then
          { p with division_code := some "00",
                   classification_method := some "toc_page" }
        else p).page_number = p.page_number
  split
  · rfl
  · split <;> rfl

/-- `footerTier` keeps the page numbers. -/
theorem footerTier_pn (pages : List PageRec) (f : String) :
    (footerTier pages f).map (·.page_number) = pages.map (·.page_number) := by
  unfold footerTier
  rw [List.map_map]
  apply List.map_congr_left
  intro p _
  show (if p.section_number ≠ none ∨ p.division_code ≠ none then p
        else
          match detect_division_from_content p.content f with
          | (some s, d) =>
            { p with section_number := some s, division_code := d,
                     classification_method := some "footer" }
          | _ => p).page_number = p.page_number
  split
  · rfl
  · split <;> rfl

/-- `apply_section_map` keeps the page numbers. -/
theorem apply_section_map_pn (pages : List PageRec)
    (m : List (String × Nat)) (src : String) :
    (apply_section_map pages m src).map (·.page_number) =
      pages.map (·.page_number) := by
  unfold apply_section_map
  split
  · rfl
  · rw [List.map_map]
    apply List.map_congr_left
    intro p _
    exact pageAssign_pn _ _ p

/-- `assign_pages_from_outline` keeps the page numbers. -/
theorem assign_pages_from_outline_pn (pages : List PageRec)
    (m : List (String × Nat)) (f : String) :
    (assign_pages_from_outline pages m f).map (·.page_number) =
      pages.map (·.page_number) := by
  unfold assign_pages_from_outline
  split
  · rfl
  · rw [List.map_map]
    apply List.map_congr_left
    intro p _
    exact assignPageOutline_pn _ _ _ p

/-- `inheritPass` keeps the page numbers. -/
theorem inheritPass_pn :
    ∀ (l : List PageRec) (ps pd : Option String),
      (inheritPass l ps pd).map (·.page_number) = l.map (·.page_number) := by
  intro l
  induction l with
  | nil => intro ps pd; rfl
  | cons p l ih =>
    intro ps pd
    unfold inheritPass
    split
    · rw [List.map_cons, List.map_cons, ih]
    · split
      · rw [List.map_cons, List.map_cons, ih]
      · rw [List.map_cons, List.map_cons, ih]

/-- `inheritPassAfterAi` keeps the page numbers. -/
theorem inheritPassAfterAi_pn :
    ∀ (l : List PageRec) (ps pd : Option String),
      (inheritPassAfterAi l ps pd).map (·.page_number) =
        l.map (·.page_number) := by
  intro l
  induction l with
  | nil => intro ps pd; rfl
  | cons p l ih =>
    intro ps pd
    unfold inheritPassAfterAi
    split
    · rw [List.map_cons, List.map_cons, ih]
    · split
      · rw [List.map_cons, List.map_cons, ih]
      · split
        · rw [List.map_cons, List.map_cons, ih]
        · rw [List.map_cons, List.map_cons, ih]

/-- `applyAiClassifications` keeps the page numbers. -/
theorem applyAi_pn :
    ∀ (l : List PageRec) (divs : List String),
      (applyAiClassifications l divs).map (·.page_number) =
        l.map (·.page_number) := by
  intro l
  induction l with
  | nil => intro divs; rfl
  | cons p l ih =>
    intro divs
    unfold applyAiClassifications
    split
    · cases divs with
      | nil => rw [List.map_cons, List.map_cons, ih]
      | cons d ds => rw [List.map_cons, List.map_cons, ih]
    · rw [List.map_cons, List.map_cons, ih]

/-- `aiStage` keeps the page numbers. -/
theorem aiStage_pn (hasKey : Bool) (oracle : Nat → BatchResult)
    (pages : List PageRec) :
    (aiStage hasKey oracle pages).map (·.page_number) =
      pages.map (·.page_number) := by
  unfold aiStage
  dsimp only
  split
  · rfl
  · split
    · rw [inheritPassAfterAi_pn, applyAi_pn]
    · rfl

/-- `crossRefStage` keeps the page numbers. -/
theorem crossRefStage_pn (pages : List PageRec) :
    (crossRefStage pages).map (·.page_number) = pages.map (·.page_number) := by
  unfold crossRefStage
  rw [List.map_map]
  apply List.map_congr_left
  intro p _
  rfl

/-- The whole classification pipeline keeps the page numbers produced by
extraction. -/
theorem parseSpecStages_pn (pages0 : List PageRec)
    (om : List (String × Nat)) (f : String) (tot : Nat) (hasKey : Bool)
    (oracle : Nat → BatchResult) :
    (parseSpecStages pages0 om f tot hasKey oracle).map (·.page_number) =
      pages0.map (·.page_number) := by
  unfold parseSpecStages
  rw [crossRefStage_pn, aiStage_pn, inheritPass_pn, footerTier_pn,
    apply_section_map_pn, preTagTocPages_pn]
  split
  · rfl
  · rw [assign_pages_from_outline_pn]

/-- The page numbers of the extracted records. -/
theorem extractPages_pn (doc : List String) :
    (extractPages doc).map (·.page_number) =
      (List.range doc.length).filterMap (fun i =>
        if clean_text (doc.getD i "") = "" ∨
            (pyStrip (clean_text (doc.getD i ""))).length < 50 then none
        else some (i + 1)) := by
  unfold extractPages
  rw [List.map_filterMap]
  apply List.filterMap_congr
  intro i _
  dsimp only
  split
  · rfl
  · rfl

/-- Claim C10: `parse_spec` emits no record for a page whose cleaned text is
empty or under 50 stripped characters — its final page-number list is
exactly the kept raw indices (so it can be non-contiguous), and no record
carries a dropped page's number.  (By definition the format-detection sample
is the first 50 *retained* pages: `parse_spec` feeds
`(extractPages doc).take 50` to `detect_spec_format`.) -/
theorem C10_blank_page_omission (doc : List String)
    (pdfToc : List (String × Nat)) (hasKey : Bool)
    (oracle : Nat → BatchResult) :
    (parse_spec doc pdfToc hasKey oracle).map (·.page_number) =
      (List.range doc.length).filterMap (fun i =>
        if clean_text (doc.getD i "") = "" ∨
            (pyStrip (clean_text (doc.getD i ""))).length < 50 then none
        else some (i + 1)) ∧
    ∀ i, i < doc.length →
      (pyStrip (clean_text (doc.getD i ""))).length < 50 →
      ∀ r ∈ parse_spec doc pdfToc hasKey oracle, r.page_number ≠ i + 1 := by
  have hmain : (parse_spec doc pdfToc hasKey oracle).map (·.page_number) =
      (List.range doc.length).filterMap (fun i =>
        if clean_text (doc.getD i "") = "" ∨
            (pyStrip (clean_text (doc.getD i ""))).length < 50 then none
        else some (i + 1)) := by
    unfold parse_spec
    rw [parseSpecStages_pn, extractPages_pn]
  refine ⟨hmain, fun i hi hshort r hr hpn => ?_⟩
  have hmem : r.page_number ∈
      (parse_spec doc pdfToc hasKey oracle).map (·.page_number) :=
    List.mem_map_of_mem _ hr
  rw [hmain] at hmem
  rw [List.mem_filterMap] at hmem
  obtain ⟨j, -, hj⟩ := hmem
  by_cases hcond : clean_text (doc.getD j "") = "" ∨
      (pyStrip (clean_text (doc.getD j ""))).length < 50
  · rw [if_pos hcond] at hj
    cases hj
  · rw [if_neg hcond] at hj
    have hji : j = i := by
      have := Option.some.inj hj
      omega
    rw [hji] at hcond
    exact hcond (Or.inr hshort)

/-- Claim C10 witness: a two-page document whose first page is blank yields
exactly one record, numbered 2. -/
theorem C10_witness :
    (parse_spec ["   ", "".pushn 'A' 60] [] false
        (fun _ => BatchResult.failure)).map (·.page_number) = [2] ∧
    (1 < 2 ∧ (pyStrip (clean_text (["   ", "".pushn 'A' 60].getD 0 ""))).length < 50) ∧
    ∀ r ∈ parse_spec ["   ", "".pushn 'A' 60] [] false
        (fun _ => BatchResult.failure), r.page_number ≠ 1 := by
  refine ⟨?_, by decide, ?_⟩
  · rw [(C10_blank_page_omission ["   ", "".pushn 'A' 60] [] false
      (fun _ => BatchResult.failure)).1]
    decide
  · intro r hr
    exact (C10_blank_page_omission ["   ", "".pushn 'A' 60] [] false
      (fun _ => BatchResult.failure)).2 0 (by decide) (by decide) r hr

/-! ### Claim C4: the page-record invariant (postconditions of the
content-pattern classifier) -/

/-- Post-condition of the compact `extract_section`. -/
theorem extract_section_compact_post (dv : Char × Char) (rest : List Char)
    (s d : String) (h : extract_section_compact dv rest = some (s, d)) :
    divOk s d := by
  unfold extract_section_compact at h
  dsimp only at h
  split_ifs at h with hg hl
  · have h2 := Option.some.inj h
    have hs := congrArg Prod.fst h2
    have hd := congrArg Prod.snd h2
    dsimp at hs hd
    refine ⟨hd ▸ hg.1, hd ▸ hg.2, ?_⟩
    rw [← hs, ← hd]
    simp only [strAppend_assoc]
    exact pyTakeStr_g2s_append dv _
  · have h2 := Option.some.inj h
    have hs := congrArg Prod.fst h2
    have hd := congrArg Prod.snd h2
    dsimp at hs hd
    refine ⟨hd ▸ hg.1, hd ▸ hg.2, ?_⟩
    rw [← hs, ← hd]
    simp only [strAppend_assoc]
    exact pyTakeStr_g2s_append dv _

/-- Post-condition of the spaced `extract_section`. -/
theorem extract_section_spaced_post (g : SpacedG) (s d : String)
    (h : extract_section_spaced g = some (s, d)) : divOk s d := by
  unfold extract_section_spaced at h
  dsimp only at h
  split_ifs at h with hg
  · rcases hsub : g.sub with _ | ds <;> rw [hsub] at h <;>
    · have h2 := Option.some.inj h
      have hs := congrArg Prod.fst h2
      have hd := congrArg Prod.snd h2
      dsimp at hs hd
      refine ⟨hd ▸ hg.1, hd ▸ hg.2, ?_⟩
      rw [← hs, ← hd]
      simp only [strAppend_assoc]
      exact pyTakeStr_g2s_append g.dv _

/-- Post-condition of `matchAndExtract`. -/
theorem matchAndExtract_post (fmt : String) (region : List Char)
    (s d : String) (h : matchAndExtract fmt region = some (s, d)) :
    divOk s d := by
  unfold matchAndExtract at h
  split_ifs at h
  · rcases hsr : searchL tryCompactPage region with _ | g <;> rw [hsr] at h
    · exact absurd h (by simp)
    · exact extract_section_compact_post g.1.1 g.1.2 s d h
  · rcases hsr : searchL tryContentSpaced region with _ | g <;> rw [hsr] at h
    · exact absurd h (by simp)
    · exact extract_section_spaced_post g.1 s d h
  · rcases hsr : searchL trySectionCompact region with _ | g <;> rw [hsr] at h
    · exact absurd h (by simp)
    · exact extract_section_compact_post g.1.1 g.1.2 s d h
  · rcases hsr : searchL trySectionSpacedContent region with _ | g <;>
      rw [hsr] at h
    · exact absurd h (by simp)
    · exact extract_section_spaced_post g.1 s d h

/-- A property of every successful step result carries to
`firstRegionMatch`. -/
theorem firstRegionMatch_post {P : String → String → Prop}
    (step : List Char → Option (String × String))
    (hstep : ∀ r s d, step r = some (s, d) → P s d) :
    ∀ (regions : List (List Char)) (s d : String),
      firstRegionMatch step regions = some (s, d) → P s d := by
  intro regions
  induction regions with
  | nil => intro s d h; exact absurd h (by simp [firstRegionMatch])
  | cons r rs ih =>
    intro s d h
    unfold firstRegionMatch at h
    split at h
    · next x heq => exact hstep r s d (h ▸ heq)
    · exact ih s d h

/-- Post-condition of the auto-mode scan. -/
theorem autoScan_post (regions : List (List Char)) (s d : String)
    (h : autoScan regions = some (s, d)) : divOk s d := by
  unfold autoScan at h
  split at h
  · next x heq =>
    exact firstRegionMatch_post _ (fun r => matchAndExtract_post _ r) regions
      s d (h ▸ heq)
  · split at h
    · next x heq =>
      exact firstRegionMatch_post _ (fun r => matchAndExtract_post _ r) regions
        s d (h ▸ heq)
    · split at h
      · next x heq =>
        exact firstRegionMatch_post _ (fun r => matchAndExtract_post _ r)
          regions s d (h ▸ heq)
      · exact firstRegionMatch_post _ (fun r => matchAndExtract_post _ r)
          regions s d h

/-- Post-condition of the `DIVISION XX` fallback. -/
theorem divisionFallback_post :
    ∀ (regions : List (List Char)) (s d : String),
      divisionFallback regions = some (s, d) → divOk s d := by
  intro regions
  induction regions with
  | nil => intro s d h; exact absurd h (by simp [divisionFallback])
  | cons r rs ih =>
    intro s d h
    unfold divisionFallback at h
    split at h
    · next g heq =>
      dsimp only at h
      split_ifs at h with hcond
      · have h2 := Option.some.inj h
        have hs := congrArg Prod.fst h2
        have hd := congrArg Prod.snd h2
        dsimp at hs hd
        refine ⟨hd ▸ hcond.1, hd ▸ hcond.2, ?_⟩
        rw [← hs, ← hd]
        exact pyTakeStr_append_of_mem _ hcond.1 _
      · exact ih s d h
    · exact ih s d h

/-- Post-condition of `detect_division_from_content`: any successful
detection yields a whitelisted trade division that prefixes the section. -/
theorem detect_division_post (t f s : String) (d? : Option String)
    (h : detect_division_from_content t f = (some s, d?)) :
    ∃ d, d? = some d ∧ divOk s d := by
  unfold detect_division_from_content at h
  dsimp only at h
  split_ifs at h
  · exact absurd (congrArg Prod.fst h) (by simp)
  · exact absurd (congrArg Prod.fst h) (by simp)
  · split at h
    · next s1 d1 heq =>
      have h2 := (Prod.mk.injEq _ _ _ _).mp h
      refine ⟨d1, h2.2.symm, ?_⟩
      have := firstRegionMatch_post _ (fun r => matchAndExtract_post _ r)
        (searchRegions t) s1 d1 heq
      rwa [← Option.some.inj h2.1]
    · exact absurd (congrArg Prod.fst h) (by simp)
  · split at h
    · next s1 d1 heq =>
      have h2 := (Prod.mk.injEq _ _ _ _).mp h
      refine ⟨d1, h2.2.symm, ?_⟩
      have := autoScan_post (searchRegions t) s1 d1 heq
      rwa [← Option.some.inj h2.1]
    · split at h
      · next s1 d1 heq =>
        have h2 := (Prod.mk.injEq _ _ _ _).mp h
        refine ⟨d1, h2.2.symm, ?_⟩
        have := divisionFallback_post (searchRegions t) s1 d1 heq
        rwa [← Option.some.inj h2.1]
      · exact absurd (congrArg Prod.fst h) (by simp)

/-- Members of a first-wins dict insertion. -/
theorem dictInsertFirstWins_mem (m : List (String × Nat)) (k : String)
    (v : Nat) (x : String × Nat) (hx : x ∈ dictInsertFirstWins m k v) :
    x ∈ m ∨ x = (k, v) := by
  unfold dictInsertFirstWins at hx
  split at hx
  · exact Or.inl hx
  · rcases List.mem_append.mp hx with h | h
    · exact Or.inl h
    · exact Or.inr (List.mem_singleton.mp h)

/-- Members of a last-wins dict insertion keep old keys or take the new
one. -/
theorem dictInsertLastWins_mem :
    ∀ (m : List (String × Nat)) (k : String) (v : Nat) (x : String × Nat),
      x ∈ dictInsertLastWins m k v → (∃ y ∈ m, x.1 = y.1) ∨ x.1 = k := by
  intro m
  induction m with
  | nil =>
    intro k v x hx
    rw [show dictInsertLastWins [] k v = [(k, v)] from rfl] at hx
    exact Or.inr (congrArg Prod.fst (List.mem_singleton.mp hx))
  | cons y0 m ih =>
    intro k v x hx
    obtain ⟨k0, v0⟩ := y0
    unfold dictInsertLastWins at hx
    split at hx
    next hk =>
      rcases List.mem_cons.mp hx with rfl | h
      · exact Or.inr hk
      · exact Or.inl ⟨x, List.mem_cons_of_mem _ h, rfl⟩
    next hk =>
      rcases List.mem_cons.mp hx with rfl | h
      · exact Or.inl ⟨(k0, v0), List.mem_cons_self _ _, rfl⟩
      · rcases ih k v x h with ⟨y, hy, hxy⟩ | hk2
        · exact Or.inl ⟨y, List.mem_cons_of_mem _ hy, hxy⟩
        · exact Or.inr hk2

/-- Every key of the extracted PDF outline starts with a whitelisted
division. -/
theorem extract_pdf_outline_key (toc : List (String × Nat))
    (e : String × Nat) (he : e ∈ extract_pdf_outline toc) :
    pyTakeStr e.1 2 ∈ VALID_DIVISIONS := by
  unfold extract_pdf_outline at he
  split at he
  · exact absurd he (by simp)
  · dsimp only at he
    split at he
    · exact absurd he (by simp)
    · have key : ∀ (l : List (String × Nat)) (acc : List (String × Nat)),
          (∀ x ∈ acc, pyTakeStr x.1 2 ∈ VALID_DIVISIONS) →
          ∀ x ∈ l.foldl
            (fun m entry =>
              match searchL tryOutlineSection entry.1.data with
              | some (g, _) =>
                if g2s g.d1 ∈ VALID_DIVISIONS then
                  dictInsertFirstWins m (footerSectionOf g) entry.2
                else m
              | none => m) acc,
          pyTakeStr x.1 2 ∈ VALID_DIVISIONS := by
        intro l
        induction l with
        | nil => intro acc hacc x hx; exact hacc x hx
        | cons entry l ihl =>
          intro acc hacc x hx
          rw [List.foldl_cons] at hx
          refine ihl _ ?_ x hx
          intro y hy
          split at hy
          · next g _ _ =>
            split at hy
            · next hg =>
              rcases dictInsertFirstWins_mem _ _ _ y hy with h | rfl
              · exact hacc y h
              · rw [show ((footerSectionOf g, entry.2) : String × Nat).1 =
                  footerSectionOf g from rfl, footerSectionOf_take2]
                exact hg
            · exact hacc y hy
          · exact hacc y hy
      exact key toc [] (by simp) e he

/-- Every key of the parsed TOC map starts with a whitelisted division. -/
theorem parse_toc_key (txt : String) (e : String × Nat)
    (he : e ∈ parse_toc txt) : pyTakeStr e.1 2 ∈ VALID_DIVISIONS := by
  unfold parse_toc at he
  have key : ∀ (l : List TocG) (acc : List (String × Nat)),
      (∀ x ∈ acc, pyTakeStr x.1 2 ∈ VALID_DIVISIONS) →
      ∀ x ∈ l.foldl
        (fun m g =>
          if g2s g.d1 ∈ VALID_DIVISIONS then
            let page_num := pyInt ⟨g.pageDigits⟩
            if 1 ≤ page_num ∧ page_num ≤ 5000 then
              dictInsertLastWins m (tocSectionOf g) page_num
            else m
          else m) acc,
      pyTakeStr x.1 2 ∈ VALID_DIVISIONS := by
    intro l
    induction l with
    | nil => intro acc hacc x hx; exact hacc x hx
    | cons g l ihl =>
      intro acc hacc x hx
      rw [List.foldl_cons] at hx
      refine ihl _ ?_ x hx
      intro y hy
      dsimp only at hy
      split_ifs at hy with hg hpn
      · rcases dictInsertLastWins_mem _ _ _ y hy with ⟨z, hz, hyz⟩ | hk
        · rw [hyz]; exact hacc z hz
        · rw [hk, tocSectionOf_take2]; exact hg
      · exact hacc y hy
      · exact hacc y hy
  exact key _ [] (by simp) e he

/-- `validate_toc_map` returns a subset of its input. -/
theorem validate_toc_map_subset (m : List (String × Nat)) (tp : Nat)
    (x : String × Nat) (hx : x ∈ validate_toc_map m tp) : x ∈ m := by
  unfold validate_toc_map at hx
  split at hx
  · exact absurd hx (by simp)
  · dsimp only at hx
    split_ifs at hx <;> first | exact absurd hx (by simp) | exact hx

/-- Every key of the winning TOC/Index map starts with a whitelisted
division. -/
theorem find_best_toc_map_key (pages : List PageRec) (tp : Nat)
    (e : String × Nat) (he : e ∈ (find_best_toc_map pages tp).1) :
    pyTakeStr e.1 2 ∈ VALID_DIVISIONS := by
  unfold find_best_toc_map at he
  dsimp only at he
  split_ifs at he <;> dsimp only at he <;>
    first
    | exact absurd he (List.not_mem_nil e)
    | exact parse_toc_key _ e (validate_toc_map_subset _ _ e he)

/-- `findRange` only returns sections present in its list. -/
theorem findRange_mem :
    ∀ (l : List (String × Nat)) (p : Nat) (s : String),
      findRange l p = some s → ∃ st, (s, st) ∈ l := by
  intro l
  induction l with
  | nil => intro p s h; exact absurd h (by simp [findRange])
  | cons b rest ih =>
    intro p s h
    obtain ⟨b1, b2⟩ := b
    unfold findRange at h
    split at h
    · split at h
      · exact ⟨b2, by rw [← Option.some.inj h]; exact List.mem_cons_self _ _⟩
      · split at h
        · exact ⟨b2, by rw [← Option.some.inj h]; exact List.mem_cons_self _ _⟩
        · obtain ⟨st, hst⟩ := ih p s h
          exact ⟨st, List.mem_cons_of_mem _ hst⟩
    · obtain ⟨st, hst⟩ := ih p s h
      exact ⟨st, List.mem_cons_of_mem _ hst⟩

/-- `insertByStart` adds no new elements. -/
theorem insertByStart_mem (y : String × Nat) :
    ∀ (acc : List (String × Nat)) (x : String × Nat),
      x ∈ insertByStart y acc → x = y ∨ x ∈ acc := by
  intro acc
  induction acc with
  | nil => intro x hx; exact Or.inl (List.mem_singleton.mp hx)
  | cons z zs ih =>
    intro x hx
    unfold insertByStart at hx
    split at hx
    · rcases List.mem_cons.mp hx with rfl | h
      · exact Or.inr (List.mem_cons_self _ _)
      · rcases ih x h with h2 | h2
        · exact Or.inl h2
        · exact Or.inr (List.mem_cons_of_mem _ h2)
    · rcases List.mem_cons.mp hx with rfl | h
      · exact Or.inl rfl
      · exact Or.inr h

/-- `sortByStart` adds no new elements. -/
theorem sortByStart_mem (l : List (String × Nat)) (x : String × Nat)
    (hx : x ∈ sortByStart l) : x ∈ l := by
  have key : ∀ (l acc : List (String × Nat)) (x : String × Nat),
      x ∈ l.foldl (fun acc y => insertByStart y acc) acc →
      x ∈ acc ∨ x ∈ l := by
    intro l
    induction l with
    | nil => intro acc x hx; exact Or.inl hx
    | cons y ys ih =>
      intro acc x hx
      rw [List.foldl_cons] at hx
      rcases ih _ x hx with h | h
      · rcases insertByStart_mem y acc x h with rfl | h2
        · exact Or.inr (List.mem_cons_self _ _)
        · exact Or.inl h2
      · exact Or.inr (List.mem_cons_of_mem _ h)
  rcases key l [] x hx with h | h
  · exact absurd h (by simp)
  · exact h

/-- Setting section, division and method together preserves the page
invariant when the division is whitelisted and prefixes the section. -/
theorem pageInv_set (q : PageRec) (cs cd m : String)
    (h1 : cd ∈ VALID_DIVISIONS) (h2 : pyTakeStr cs 2 = cd) :
    pageInv { q with section_number := some cs, division_code := some cd,
                     classification_method := some m } := by
  refine ⟨by simp, by simp, ?_, ?_⟩
  · intro s d hs hd
    rw [← Option.some.inj hs, ← Option.some.inj hd]
    exact h2
  · intro d hd
    rw [← Option.some.inj hd]
    exact h1

/-- Setting only division and method (section still absent) preserves the
page invariant when the division is whitelisted. -/
theorem pageInv_setDiv (q : PageRec) (cd m : String)
    (hq : q.section_number = none) (h1 : cd ∈ VALID_DIVISIONS) :
    pageInv { q with division_code := some cd,
                     classification_method := some m } := by
  refine ⟨Iff.rfl, fun _ => rfl, ?_, ?_⟩
  · intro s d hs
    have h2 : q.section_number = some s := hs
    rw [hq] at h2
    cases h2
  · intro d hd
    rw [← Option.some.inj hd]
    exact h1

/-- Freshly extracted pages satisfy the invariant. -/
theorem extractPages_inv (doc : List String) :
    ∀ p ∈ extractPages doc, pageInv p := by
  intro p hp
  unfold extractPages at hp
  rw [List.mem_filterMap] at hp
  obtain ⟨i, -, hi⟩ := hp
  dsimp only at hi
  split at hi
  · cases hi
  · rw [← Option.some.inj hi]
    refine ⟨Iff.rfl, ?_, ?_, ?_⟩
    · intro hs
      simp at hs
    · intro s d hs hd
      simp at hs
    · intro d hd
      simp at hd

/-- `pageAssign` preserves the invariant for whitelisted map keys. -/
theorem pageAssign_inv (ss : List (String × Nat)) (src : String)
    (page : PageRec) (hkeys : ∀ e ∈ ss, pyTakeStr e.1 2 ∈ VALID_DIVISIONS)
    (hp : pageInv page) : pageInv (pageAssign ss src page) := by
  unfold pageAssign
  split
  · exact hp
  · rcases hfr : findRange ss page.page_number with _ | s
    · exact hp
    · obtain ⟨st, hst⟩ := findRange_mem ss page.page_number s hfr
      exact pageInv_set page s (pyTakeStr s 2) src (hkeys (s, st) hst) rfl

/-- `apply_section_map` preserves the invariant. -/
theorem apply_section_map_inv (pages : List PageRec)
    (m : List (String × Nat)) (src : String)
    (hkeys : ∀ e ∈ m, pyTakeStr e.1 2 ∈ VALID_DIVISIONS)
    (h : ∀ p ∈ pages, pageInv p) :
    ∀ q ∈ apply_section_map pages m src, pageInv q := by
  unfold apply_section_map
  split
  · exact h
  · intro q hq
    rw [List.mem_map] at hq
    obtain ⟨p, hp, rfl⟩ := hq
    exact pageAssign_inv _ src p
      (fun e he => hkeys e (sortByStart_mem m e he)) (h p hp)

/-- `assignPageOutline` preserves the invariant for whitelisted outline
keys. -/
theorem assignPageOutline_inv (ss : List (String × Nat)) (od : List String)
    (f : String) (page : PageRec)
    (hkeys : ∀ e ∈ ss, pyTakeStr e.1 2 ∈ VALID_DIVISIONS)
    (hp : pageInv page) : pageInv (assignPageOutline ss od f page) := by
  have h1 : pageInv (match findRange ss page.page_number with
      | some s =>
        { page with section_number := some s,
                    division_code := some (pyTakeStr s 2),
                    classification_method := some "outline" }
      | none => page) := by
    rcases hfr : findRange ss page.page_number with _ | s
    · exact hp
    · obtain ⟨st, hst⟩ := findRange_mem ss page.page_number s hfr
      exact pageInv_set page s (pyTakeStr s 2) "outline" (hkeys (s, st) hst) rfl
  unfold assignPageOutline
  dsimp only
  split
  next cs cd heq =>
    obtain ⟨d, hdd, hOk⟩ := detect_division_post page.content f cs (some cd) heq
    have hdcd : d = cd := Option.some.inj hdd.symm
    rw [hdcd] at hOk
    by_cases hout : cd ∉ od
    · rw [if_pos hout]
      exact pageInv_set _ cs cd "content" hOk.1 hOk.2.2
    · rw [if_neg hout]
      split
      next s heq2 =>
        split
        · exact pageInv_set _ cs cd "outline+" hOk.1 hOk.2.2
        · rw [heq2] at h1
          exact h1
      next heq2 =>
        rw [heq2] at h1
        exact h1
  next hno =>
    exact h1

/-- `assign_pages_from_outline` preserves the invariant. -/
theorem assign_pages_from_outline_inv (pages : List PageRec)
    (m : List (String × Nat)) (f : String)
    (hkeys : ∀ e ∈ m, pyTakeStr e.1 2 ∈ VALID_DIVISIONS)
    (h : ∀ p ∈ pages, pageInv p) :
    ∀ q ∈ assign_pages_from_outline pages m f, pageInv q := by
  unfold assign_pages_from_outline
  split
  · exact h
  · intro q hq
    rw [List.mem_map] at hq
    obtain ⟨p, hp, rfl⟩ := hq
    exact assignPageOutline_inv _ _ f p
      (fun e he => hkeys e (sortByStart_mem m e he)) (h p hp)

/-- Pre-tagging TOC pages preserves the invariant. -/
theorem preTagTocPages_inv (pages : List PageRec)
    (h : ∀ p ∈ pages, pageInv p) :
    ∀ q ∈ preTagTocPages pages, pageInv q := by
  intro q hq
  unfold preTagTocPages at hq
  rw [List.mem_map] at hq
  obtain ⟨p, hp, rfl⟩ := hq
  split
  · exact h p hp
  · next hsec =>
    split
    · refine pageInv_setDiv p "00" "toc_page" ?_ (by decide)
      simpa using hsec
    · exact h p hp

/-- The footer tier preserves the invariant. -/
theorem footerTier_inv (pages : List PageRec) (f : String)
    (h : ∀ p ∈ pages, pageInv p) :
    ∀ q ∈ footerTier pages f, pageInv q := by
  intro q hq
  unfold footerTier at hq
  rw [List.mem_map] at hq
  obtain ⟨p, hp, rfl⟩ := hq
  split
  · exact h p hp
  · split
    next s d? heq =>
      obtain ⟨d, hdd, hOk⟩ := detect_division_post p.content f s d? heq
      rw [hdd]
      exact pageInv_set p s d "footer" hOk.1 hOk.2.2
    next =>
      exact h p hp

/-- The first inheritance pass preserves the invariant. -/
theorem inheritPass_inv :
    ∀ (l : List PageRec) (ps pd : Option String),
      (∀ p ∈ l, pageInv p) →
      (∀ d, pd = some d → d ∈ VALID_DIVISIONS) →
      (∀ s d, ps = some s → pd = some d → pyTakeStr s 2 = d) →
      (ps.isSome → pd.isSome) →
      ∀ q ∈ inheritPass l ps pd, pageInv q := by
  intro l
  induction l with
  | nil => intro ps pd _ _ _ _ q hq; cases hq
  | cons p l ih =>
    intro ps pd hl hst1 hst2 hst3 q hq
    have hp := hl p (List.mem_cons_self _ _)
    have hl' : ∀ r ∈ l, pageInv r := fun r hr => hl r (List.mem_cons_of_mem _ hr)
    unfold inheritPass at hq
    split at hq
    · next hdiv =>
      rcases List.mem_cons.mp hq with rfl | hq2
      · exact hp
      · exact ih p.section_number p.division_code hl'
          (fun d hd => hp.2.2.2 d hd)
          (fun s d hs hd => hp.2.2.1 s d hs hd)
          hp.2.1 q hq2
    · split at hq
      · next hpd =>
        rcases List.mem_cons.mp hq with rfl | hq2
        · obtain ⟨d0, hpd2⟩ := Option.ne_none_iff_exists'.mp hpd
          rw [hpd2]
          refine ⟨Iff.rfl, fun _ => rfl, ?_, ?_⟩
          · intro s d hs hd
            exact hst2 s d hs (hpd2.trans hd)
          · intro d hd
            exact hst1 d (hpd2.trans hd)
        · exact ih ps pd hl' hst1 hst2 hst3 q hq2
      · rcases List.mem_cons.mp hq with rfl | hq2
        · exact hp
        · exact ih ps pd hl' hst1 hst2 hst3 q hq2

/-- The post-AI inheritance pass preserves the invariant. -/
theorem inheritPassAfterAi_inv :
    ∀ (l : List PageRec) (ps pd : Option String),
      (∀ p ∈ l, pageInv p) →
      (∀ d, pd = some d → d ∈ VALID_DIVISIONS) →
      (∀ s d, ps = some s → pd = some d → pyTakeStr s 2 = d) →
      (ps.isSome → pd.isSome) →
      ∀ q ∈ inheritPassAfterAi l ps pd, pageInv q := by
  intro l
  induction l with
  | nil => intro ps pd _ _ _ _ q hq; cases hq
  | cons p l ih =>
    intro ps pd hl hst1 hst2 hst3 q hq
    have hp := hl p (List.mem_cons_self _ _)
    have hl' : ∀ r ∈ l, pageInv r := fun r hr => hl r (List.mem_cons_of_mem _ hr)
    unfold inheritPassAfterAi at hq
    split at hq
    · rcases List.mem_cons.mp hq with rfl | hq2
      · exact hp
      · exact ih p.section_number p.division_code hl'
          (fun d hd => hp.2.2.2 d hd)
          (fun s d hs hd => hp.2.2.1 s d hs hd)
          hp.2.1 q hq2
    · split at hq
      · next hcond =>
        rcases List.mem_cons.mp hq with rfl | hq2
        · obtain ⟨d0, hpd2⟩ := Option.ne_none_iff_exists'.mp hcond.2
          rw [hpd2]
          refine ⟨Iff.rfl, fun _ => rfl, ?_, ?_⟩
          · intro s d hs hd
            exact hst2 s d hs (hpd2.trans hd)
          · intro d hd
            exact hst1 d (hpd2.trans hd)
        · exact ih ps pd hl' hst1 hst2 hst3 q hq2
      · split at hq
        · rcases List.mem_cons.mp hq with rfl | hq2
          · exact hp
          · exact ih p.section_number p.division_code hl'
              (fun d hd => hp.2.2.2 d hd)
              (fun s d hs hd => hp.2.2.1 s d hs hd)
              hp.2.1 q hq2
        · rcases List.mem_cons.mp hq with rfl | hq2
          · exact hp
          · exact ih ps pd hl' hst1 hst2 hst3 q hq2

/-- Applying the AI divisions preserves the invariant (all emitted codes
being whitelisted). -/
theorem applyAi_inv :
    ∀ (l : List PageRec) (divs : List String),
      (∀ p ∈ l, pageInv p) → (∀ d ∈ divs, d ∈ VALID_DIVISIONS) →
      ∀ q ∈ applyAiClassifications l divs, pageInv q := by
  intro l
  induction l with
  | nil => intro divs _ _ q hq; cases hq
  | cons p l ih =>
    intro divs hl hdivs q hq
    have hp := hl p (List.mem_cons_self _ _)
    have hl' : ∀ r ∈ l, pageInv r := fun r hr => hl r (List.mem_cons_of_mem _ hr)
    unfold applyAiClassifications at hq
    split at hq
    · cases divs with
      | nil =>
        rcases List.mem_cons.mp hq with rfl | hq2
        · exact hp
        · exact ih [] hl' (by simp) q hq2
      | cons d ds =>
        rcases List.mem_cons.mp hq with rfl | hq2
        · have hd := hdivs d (List.mem_cons_self _ _)
          exact pageInv_set p (d ++ " 00 00") d "ai" hd
            (pyTakeStr_append_of_mem d hd " 00 00")
        · exact ih ds hl' (fun d2 hd2 => hdivs d2 (List.mem_cons_of_mem _ hd2))
            q hq2
    · rcases List.mem_cons.mp hq with rfl | hq2
      · exact hp
      · exact ih divs hl' hdivs q hq2

/-- The AI stage preserves the invariant. -/
theorem aiStage_inv (hasKey : Bool) (oracle : Nat → BatchResult)
    (pages : List PageRec) (h : ∀ p ∈ pages, pageInv p) :
    ∀ q ∈ aiStage hasKey oracle pages, pageInv q := by
  intro q hq
  unfold aiStage at hq
  dsimp only at hq
  split at hq
  · exact h q hq
  · split at hq
    · refine inheritPassAfterAi_inv _ none none ?_ ?_ ?_ ?_ q hq
      · exact applyAi_inv _ _ h
          (fun d hd => ai_classify_pages_mem hasKey oracle _ d hd)
      · intro d hd
        cases hd
      · intro s d hs hd
        cases hs
      · simp
    · exact h q hq

/-- Attaching cross references preserves the invariant. -/
theorem crossRefStage_inv (pages : List PageRec)
    (h : ∀ p ∈ pages, pageInv p) : ∀ q ∈ crossRefStage pages, pageInv q := by
  intro q hq
  unfold crossRefStage at hq
  rw [List.mem_map] at hq
  obtain ⟨p, hp, rfl⟩ := hq
  exact h p hp

/-- Claim C4: every page record in the final output of `parse_spec`
satisfies the data-model invariant — division code and classification
method set together, a set section number implying a set division code
equal to its two-character prefix, and every set division code
whitelisted. -/
theorem C4_page_invariant (doc : List String) (pdfToc : List (String × Nat))
    (hasKey : Bool) (oracle : Nat → BatchResult) :
    ∀ p ∈ parse_spec doc pdfToc hasKey oracle, pageInv p := by
  unfold parse_spec parseSpecStages
  intro p hp
  refine crossRefStage_inv _ ?_ p hp
  refine aiStage_inv _ _ _ ?_
  refine inheritPass_inv _ none none ?_
    (by intro d hd; cases hd) (by intro s d hs; cases hs) (by simp)
  refine footerTier_inv _ _ ?_
  refine apply_section_map_inv _ _ _
    (fun e he => find_best_toc_map_key _ _ e he) ?_
  refine preTagTocPages_inv _ ?_
  split
  · exact extractPages_inv doc
  · exact assign_pages_from_outline_inv _ _ _
      (fun e he => extract_pdf_outline_key pdfToc e he) (extractPages_inv doc)

/-- Claim C4 witness: the invariant holds for the single record produced
from a one-page document. -/
theorem C4_witness :
    pageInv ((parse_spec ["".pushn 'A' 60] [] false
      (fun _ => BatchResult.failure)).getD 0 default) :=
  C4_page_invariant ["".pushn 'A' 60] [] false (fun _ => BatchResult.failure)
    _ (by decide)

/-- Pre-tagging leaves a page with a set section number untouched (by
index). -/
theorem preTag_keep (pages : List PageRec) (i : Nat) (p : PageRec)
    (hp : pages.get? i = some p) (hsec : p.section_number ≠ none) :
    (preTagTocPages pages).get? i = some p := by
  unfold preTagTocPages
  rw [List.get?_map, hp]
  simp only [Option.map_some']
  rw [if_pos hsec]

/-- `pageAssign` leaves a page with a set section number untouched. -/
theorem pageAssign_keep (ss : List (String × Nat)) (src : String)
    (p : PageRec) (hsec : p.section_number ≠ none) :
    pageAssign ss src p = p := by
  unfold pageAssign
  rw [if_pos (Or.inl hsec)]

/-- `apply_section_map` leaves a page with a set section number untouched
(by index). -/
theorem apply_section_map_keep (pages : List PageRec)
    (m : List (String × Nat)) (src : String) (i : Nat) (p : PageRec)
    (hp : pages.get? i = some p) (hsec : p.section_number ≠ none) :
    (apply_section_map pages m src).get? i = some p := by
  unfold apply_section_map
  split
  · exact hp
  · rw [List.get?_map, hp]
    simp only [Option.map_some']
    rw [pageAssign_keep _ _ p hsec]

/-- The footer tier leaves a page with a set section number untouched (by
index). -/
theorem footerTier_keep (pages : List PageRec) (f : String) (i : Nat)
    (p : PageRec) (hp : pages.get? i = some p)
    (hsec : p.section_number ≠ none) :
    (footerTier pages f).get? i = some p := by
  unfold footerTier
  rw [List.get?_map, hp]
  simp only [Option.map_some']
  rw [if_pos (Or.inl hsec)]

/-- The first inheritance pass leaves a page with a set division code
untouched (by index). -/
theorem inheritPass_keep :
    ∀ (l : List PageRec) (ps pd : Option String) (i : Nat) (p : PageRec),
      l.get? i = some p → p.division_code ≠ none →
      (inheritPass l ps pd).get? i = some p := by
  intro l
  induction l with
  | nil => intro ps pd i p hp _; cases i <;> cases hp
  | cons a l ih =>
    intro ps pd i p hp hdiv
    unfold inheritPass
    cases i with
    | zero =>
      obtain rfl : a = p := Option.some.inj hp
      rw [if_pos hdiv]
      rfl
    | succ i =>
      have hp2 : l.get? i = some p := hp
      split
      · exact ih _ _ i p hp2 hdiv
      · split
        · exact ih _ _ i p hp2 hdiv
        · exact ih _ _ i p hp2 hdiv

/-- The AI application loop leaves a page with a set division code
untouched (by index). -/
theorem applyAi_keep :
    ∀ (l : List PageRec) (divs : List String) (i : Nat) (p : PageRec),
      l.get? i = some p → p.division_code ≠ none →
      (applyAiClassifications l divs).get? i = some p := by
  intro l
  induction l with
  | nil => intro divs i p hp _; cases i <;> cases hp
  | cons a l ih =>
    intro divs i p hp hdiv
    unfold applyAiClassifications
    cases i with
    | zero =>
      obtain rfl : a = p := Option.some.inj hp
      rw [if_neg hdiv]
      rfl
    | succ i =>
      have hp2 : l.get? i = some p := hp
      split
      · cases divs with
        | nil => exact ih [] i p hp2 hdiv
        | cons d ds => exact ih ds i p hp2 hdiv
      · exact ih divs i p hp2 hdiv

/-- The post-AI inheritance pass leaves a page with a set division code
untouched (by index). -/
theorem inheritAfterAi_keep :
    ∀ (l : List PageRec) (ps pd : Option String) (i : Nat) (p : PageRec),
      l.get? i = some p → p.division_code ≠ none →
      (inheritPassAfterAi l ps pd).get? i = some p := by
  intro l
  induction l with
  | nil => intro ps pd i p hp _; cases i <;> cases hp
  | cons a l ih =>
    intro ps pd i p hp hdiv
    unfold inheritPassAfterAi
    cases i with
    | zero =>
      obtain rfl : a = p := Option.some.inj hp
      by_cases hai : a.classification_method = some "ai"
      · rw [if_pos hai]
        rfl
      · rw [if_neg hai, if_neg (fun hc => hdiv hc.1), if_pos hdiv]
        rfl
    | succ i =>
      have hp2 : l.get? i = some p := hp
      split
      · exact ih _ _ i p hp2 hdiv
      · split
        · exact ih _ _ i p hp2 hdiv
        · split
          · exact ih _ _ i p hp2 hdiv
          · exact ih _ _ i p hp2 hdiv

/-- The AI stage leaves a page with a set division code untouched (by
index). -/
theorem aiStage_keep (k : Bool) (o : Nat → BatchResult)
    (pages : List PageRec) (i : Nat) (p : PageRec)
    (hp : pages.get? i = some p) (hdiv : p.division_code ≠ none) :
    (aiStage k o pages).get? i = some p := by
  unfold aiStage
  dsimp only
  split
  · exact hp
  · split
    · exact inheritAfterAi_keep _ none none i p
        (applyAi_keep pages _ i p hp hdiv) hdiv
    · exact hp

/-- The cross-reference stage only changes the `cross_refs` field (by
index). -/
theorem crossRefStage_keep (pages : List PageRec) (i : Nat) (p : PageRec)
    (hp : pages.get? i = some p) :
    ∃ q, (crossRefStage pages).get? i = some q ∧
      q.section_number = p.section_number ∧
      q.division_code = p.division_code ∧
      q.classification_method = p.classification_method := by
  have hm : (crossRefStage pages).get? i = some { p with cross_refs :=
      (if (extract_cross_references p.content p.section_number).isEmpty
       then none
       else some (extract_cross_references p.content p.section_number)) } := by
    unfold crossRefStage
    rw [List.get?_map, hp]
    rfl
  exact ⟨_, hm, rfl, rfl, rfl⟩

/-- Case analysis of `assignPageOutline` on an outline-covered page: the
outline assignment survives, or the content scan overrides it as `content`
(division absent from the outline) or as `outline+` (outline division 00/01
and a trade division found). -/
theorem assignPageOutline_cases (ss : List (String × Nat)) (od : List String)
    (f : String) (page : PageRec) (s : String)
    (hfr : findRange ss page.page_number = some s) :
    assignPageOutline ss od f page =
        { page with section_number := some s,
                    division_code := some (pyTakeStr s 2),
                    classification_method := some "outline" } ∨
    (∃ cs cd, detect_division_from_content page.content f =
        (some cs, some cd) ∧ cd ∉ od ∧
      assignPageOutline ss od f page =
        { page with section_number := some cs, division_code := some cd,
                    classification_method := some "content" }) ∨
    (∃ cs cd, detect_division_from_content page.content f =
        (some cs, some cd) ∧ cd ∈ od ∧
      pyTakeStr s 2 ∈ (["00", "01"] : List String) ∧
      cd ∉ (["00", "01"] : List String) ∧
      assignPageOutline ss od f page =
        { page with section_number := some cs, division_code := some cd,
                    classification_method := some "outline+" }) := by
  unfold assignPageOutline
  dsimp only
  rw [hfr]
  dsimp only
  cases hdc : detect_division_from_content page.content f with
  | mk so dopt =>
    cases so with
    | none => left; rfl
    | some cs =>
      cases dopt with
      | none => left; rfl
      | some cd =>
        dsimp only
        by_cases hout : cd ∉ od
        · rw [if_pos hout]
          right; left
          exact ⟨cs, cd, rfl, hout, rfl⟩
        · rw [if_neg hout]
          by_cases h00 : pyTakeStr s 2 ∈ (["00", "01"] : List String)
          · rw [if_pos h00]
            right; right
            obtain ⟨d, hdd, hOk⟩ :=
              detect_division_post page.content f cs (some cd) hdc
            have hdcd : d = cd := Option.some.inj hdd.symm
            rw [hdcd] at hOk
            exact ⟨cs, cd, rfl, not_not.mp hout, h00, hOk.2.1, rfl⟩
          · rw [if_neg h00]
            left; rfl

/-- A page that leaves the outline stage with section number and division
code both set keeps section, division and method through every later stage
of `parse_spec`. -/
theorem outline_keep_stages (pages0 : List PageRec)
    (om : List (String × Nat)) (fmt : String) (tot : Nat) (k : Bool)
    (o : Nat → BatchResult) (i : Nat) (p : PageRec)
    (hp : (outlineStage pages0 om fmt).get? i = some p)
    (hsec : p.section_number ≠ none) (hdiv : p.division_code ≠ none) :
    ∃ q, (parseSpecStages pages0 om fmt tot k o).get? i = some q ∧
      q.section_number = p.section_number ∧
      q.division_code = p.division_code ∧
      q.classification_method = p.classification_method := by
  unfold parseSpecStages
  dsimp only
  unfold outlineStage at hp
  refine crossRefStage_keep _ i p ?_
  refine aiStage_keep k o _ i p ?_ hdiv
  refine inheritPass_keep _ none none i p ?_ hdiv
  refine footerTier_keep _ fmt i p ?_ hsec
  refine apply_section_map_keep _ _ _ i p ?_ hsec
  exact preTag_keep _ i p hp hsec

/-- Claim C5: (a) a page classified by the outline tier (section number and
division code set when the outline stage ends) keeps its section number,
division code and classification method through every later tier of
`parse_spec` — toc_page pre-tag, toc/index map application, footer pattern,
both inheritance passes, the AI tier and the cross-reference pass; (b)
within the outline tier itself, an outline-covered page either keeps the
outline assignment, or the content scan replaces it as `content` when the
found division appears nowhere in the outline, or as `outline+` when the
outline assigned a 00/01 division and the content found a trade (non-00/01)
division. -/
theorem C5_outline_override_priority :
    (∀ (pages0 : List PageRec) (om : List (String × Nat)) (fmt : String)
       (tot : Nat) (k : Bool) (o : Nat → BatchResult) (i : Nat) (p : PageRec),
       (outlineStage pages0 om fmt).get? i = some p →
       p.section_number ≠ none → p.division_code ≠ none →
       ∃ q, (parseSpecStages pages0 om fmt tot k o).get? i = some q ∧
         q.section_number = p.section_number ∧
         q.division_code = p.division_code ∧
         q.classification_method = p.classification_method) ∧
    (∀ (ss : List (String × Nat)) (od : List String) (f : String)
       (page : PageRec) (s : String),
       findRange ss page.page_number = some s →
       assignPageOutline ss od f page =
           { page with section_number := some s,
                       division_code := some (pyTakeStr s 2),
                       classification_method := some "outline" } ∨
       (∃ cs cd, detect_division_from_content page.content f =
           (some cs, some cd) ∧ cd ∉ od ∧
         assignPageOutline ss od f page =
           { page with section_number := some cs, division_code := some cd,
                       classification_method := some "content" }) ∨
       (∃ cs cd, detect_division_from_content page.content f =
           (some cs, some cd) ∧ cd ∈ od ∧
         pyTakeStr s 2 ∈ (["00", "01"] : List String) ∧
         cd ∉ (["00", "01"] : List String) ∧
         assignPageOutline ss od f page =
           { page with section_number := some cs, division_code := some cd,
                       classification_method := some "outline+" })) :=
  ⟨fun pages0 om fmt tot k o i p hp hs hd =>
     outline_keep_stages pages0 om fmt tot k o i p hp hs hd,
   fun ss od f page s hfr => assignPageOutline_cases ss od f page s hfr⟩

/-- Claim C5 witness: an outline-classified page on a one-page run keeps
its triple, and the case split holds on a concrete outline-covered page. -/
theorem C5_witness :
    (∃ q, (parseSpecStages [exC5Page] [] "none" 1 false
        (fun _ => BatchResult.failure)).get? 0 = some q ∧
      q.section_number = some "03 30 00" ∧ q.division_code = some "03" ∧
      q.classification_method = some "outline") ∧
    (assignPageOutline [("03 30 00", 1)] ["03"] "none" exC5Plain =
        { exC5Plain with section_number := some "03 30 00",
                         division_code := some (pyTakeStr "03 30 00" 2),
                         classification_method := some "outline" } ∨
     (∃ cs cd, detect_division_from_content exC5Plain.content "none" =
         (some cs, some cd) ∧ cd ∉ (["03"] : List String) ∧
       assignPageOutline [("03 30 00", 1)] ["03"] "none" exC5Plain =
         { exC5Plain with section_number := some cs, division_code := some cd,
                          classification_method := some "content" }) ∨
     (∃ cs cd, detect_division_from_content exC5Plain.content "none" =
         (some cs, some cd) ∧ cd ∈ (["03"] : List String) ∧
       pyTakeStr "03 30 00" 2 ∈ (["00", "01"] : List String) ∧
       cd ∉ (["00", "01"] : List String) ∧
       assignPageOutline [("03 30 00", 1)] ["03"] "none" exC5Plain =
         { exC5Plain with section_number := some cs, division_code := some cd,
                          classification_method := some "outline+" })) := by
  constructor
  · obtain ⟨q, hq, e1, e2, e3⟩ :=
      C5_outline_override_priority.1 [exC5Page] [] "none" 1 false
        (fun _ => BatchResult.failure) 0 exC5Page rfl (by decide) (by decide)
    exact ⟨q, hq, e1, e2, e3⟩
  · exact C5_outline_override_priority.2 [("03 30 00", 1)] ["03"] "none"
      exC5Plain "03 30 00" (by decide)

end ParserSpec